import Mathlib

/-!
Verification of the Klipper bed-mesh parser
(`src/data_processing/measurement_parser.py`).

The Python module defines a dataclass `MeshData`, a class `KlipperMeshParser`
holding two compiled regular expressions,

  point_pattern = re.compile(r'#\*#\s+(-?\d+\.\d+,\s*)*-?\d+\.\d+')
  param_pattern = re.compile(r'#\*#\s+(\w+)\s+=\s+(.+)')

a method `parse_config_file : str -> Optional[MeshData]` that scans the file
line by line collecting point rows and parameters, checks the six required
parameters, builds a numpy array from the rows, converts the parameters and
returns a `MeshData` — with every exception caught and turned into `None` —
and a method `validate_mesh_data : MeshData -> bool` checking the matrix
shape against the declared counts, the magnitude bound 10 and finiteness.

This file embeds those operations as executable Lean functions over
`List Char` (strings) and `ℚ`-based symbolic floats, and proves the spec's
claims about them.  The two regular expressions are embedded as dedicated
matchers implementing `re.search` for exactly these patterns: leftmost
starting position, greedy sub-matches, with the (finitely many) backtracking
cases of these patterns resolved to their deterministic outcome.
-/

namespace MeshCheck

/-- ASCII whitespace, the `\s` class of the patterns (space, tab, newline,
carriage return, vertical tab, form feed). -/
def isSpaceC (c : Char) : Bool :=
  c == ' ' || c == '\t' || c == '\n' || c == '\r' ||
  c == Char.ofNat 11 || c == Char.ofNat 12

/-- The `\w` class: letters, digits and underscore. -/
def isWordC (c : Char) : Bool :=
  c.isAlphanum || c == '_'

/-- Greedy `p+`: the maximal nonempty prefix of characters satisfying `p`,
with the rest; `none` when the first character already fails. -/
def takeWhile1 (p : Char → Bool) (s : List Char) : Option (List Char × List Char) :=
  let t := s.takeWhile p
  if t.isEmpty then none else some (t, s.drop t.length)

/-- `str.split(sep)` on a single character, Python semantics:
the empty string yields one empty field. -/
def splitOnChar (sep : Char) : List Char → List (List Char)
  | [] => [[]]
  | c :: t =>
    let r := splitOnChar sep t
    if c == sep then [] :: r
    else
      match r with
      | [] => [[c]]
      | h :: rt => (c :: h) :: rt

/-- `str.strip()`: remove leading and trailing whitespace. -/
def stripWS (s : List Char) : List Char :=
  ((s.dropWhile isSpaceC).reverse.dropWhile isSpaceC).reverse

/-- `str.replace('#*#', '')`: left-to-right removal of every
non-overlapping occurrence of the marker. -/
def removeMarker : List Char → List Char
  | '#' :: '*' :: '#' :: t => removeMarker t
  | c :: t => c :: removeMarker t
  | [] => []

/-- Greedy match of `-?\d+\.\d+` at the head of `s`: the matched text and
the rest.  Both digit runs are maximal, which is exactly the regex's
behaviour (no following element can force them shorter). -/
def parseNumber (s : List Char) : Option (List Char × List Char) :=
  let (sgn, s1) :=
    match s with
    | c :: t => if c = '-' then (['-'], t) else (([] : List Char), c :: t)
    | [] => (([] : List Char), ([] : List Char))
  match takeWhile1 Char.isDigit s1 with
  | none => none
  | some (ip, s2) =>
    match s2 with
    | c :: s3 =>
      if c = '.' then
        match takeWhile1 Char.isDigit s3 with
        | none => none
        | some (fp, s4) => some (sgn ++ ip ++ '.' :: fp, s4)
      else none
    | [] => none

/-- The loop of `(-?\d+\.\d+,\s*)*` continuing after a first matched number:
as long as a comma followed by optional whitespace and another number
follows, consume it; otherwise stop without consuming the comma.  This is
the deterministic outcome of the regex's greedy repetition with
backtracking: a trailing `,\s*` that is not followed by a further number is
given back.  `fuel` bounds the recursion; each step consumes at least one
character, so `s.length` is always enough. -/
def numListAfter (fuel : Nat) (acc : List Char) (s : List Char) :
    List Char × List Char :=
  match fuel with
  | 0 => (acc, s)
  | fuel + 1 =>
    match s with
    | c :: r =>
      if c = ',' then
        let w := r.takeWhile isSpaceC
        let r2 := r.drop w.length
        match parseNumber r2 with
        | some (n, rest) => numListAfter fuel (acc ++ ',' :: w ++ n) rest
        | none => (acc, c :: r)
      else (acc, c :: r)
    | [] => (acc, ([] : List Char))

/-- Match of `(-?\d+\.\d+,\s*)*-?\d+\.\d+` at the head of `s`. -/
def parseNumList (s : List Char) : Option (List Char × List Char) :=
  match parseNumber s with
  | none => none
  | some (n, rest) =>
    let (all, rest2) := numListAfter rest.length n rest
    some (all, rest2)

/-- Anchored attempt of the point pattern at the head of the string:
`#\*#\s+` then the number list.  Returns the matched text (`group(0)`). -/
def matchPointAt (s : List Char) : Option (List Char) :=
  match s with
  | '#' :: '*' :: '#' :: t =>
    match takeWhile1 isSpaceC t with
    | none => none
    | some (ws, t2) =>
      match parseNumList t2 with
      | none => none
      | some (nl, _) => some ('#' :: '*' :: '#' :: (ws ++ nl))
  | _ => none

/-- `point_pattern.search(line)`: the match at the leftmost position where
the anchored attempt succeeds. -/
def pointSearch : List Char → Option (List Char)
  | [] => none
  | c :: t =>
    match matchPointAt (c :: t) with
    | some g => some g
    | none => pointSearch t

/-- Anchored attempt of the parameter pattern `#\*#\s+(\w+)\s+=\s+(.+)` at
the head of the string, returning `(group(1), group(2))`.  After the `=`,
greedy `\s+` takes all whitespace and `(.+)` the nonempty remainder; when
the remainder is all whitespace the regex backtracks one whitespace
character into `(.+)`. -/
def matchParamAt (s : List Char) : Option (List Char × List Char) :=
  match s with
  | '#' :: '*' :: '#' :: t =>
    match takeWhile1 isSpaceC t with
    | none => none
    | some (_, t1) =>
      match takeWhile1 isWordC t1 with
      | none => none
      | some (key, t2) =>
        match takeWhile1 isSpaceC t2 with
        | none => none
        | some (_, t3) =>
          match t3 with
          | c :: t4 =>
            if c = '=' then
              let k := (t4.takeWhile isSpaceC).length
              if t4.length > k then
                if k ≥ 1 then some (key, t4.drop k) else none
              else
                if k ≥ 2 then some (key, t4.drop (k - 1)) else none
            else none
          | [] => none
  | _ => none

/-- `param_pattern.search(line)`: leftmost successful anchored attempt. -/
def paramSearch : List Char → Option (List Char × List Char)
  | [] => none
  | c :: t =>
    match matchParamAt (c :: t) with
    | some g => some g
    | none => paramSearch t

/-- Symbolic IEEE double: a finite value carried exactly as a rational, or
one of the special values `nan`, `+inf`, `-inf`.  The decimal literals the
parser meets are represented exactly. -/
inductive FVal where
  | finite (q : ℚ)
  | nan
  | inf
  | ninf
deriving DecidableEq, Repr

/-- Value of a digit string (most significant first). -/
def digitsToNat (l : List Char) : ℕ :=
  l.foldl (fun a c => a * 10 + (c.toNat - 48)) 0

/-- Lower-cased copy of a string, for the case-insensitive `inf`/`nan`
forms accepted by Python's `float`. -/
def lowerList (l : List Char) : List Char :=
  l.map Char.toLower

/-- The finite-number grammar of Python's `float` after the sign:
`digits [. digits] [ (e|E) [+-] digits ]` or `. digits …`, at least one
mantissa digit, nothing left over.  Returns the exact rational value. -/
def pyFloatCore (t : List Char) : Option ℚ :=
  let ip := t.takeWhile Char.isDigit
  let r1 := t.drop ip.length
  let (fp, r2) :=
    match r1 with
    | '.' :: u => (u.takeWhile Char.isDigit, u.drop (u.takeWhile Char.isDigit).length)
    | _ => (([] : List Char), r1)
  if ip.isEmpty && fp.isEmpty then none
  else
    let mant : ℚ := (digitsToNat ip : ℚ) + (digitsToNat fp : ℚ) / (10 : ℚ) ^ fp.length
    match r2 with
    | [] => some mant
    | c :: u =>
      if c == 'e' || c == 'E' then
        let (esgn, u1) :=
          match u with
          | c' :: v =>
            if c' = '+' then ((1 : ℤ), v)
            else if c' = '-' then ((-1 : ℤ), v)
            else ((1 : ℤ), c' :: v)
          | [] => ((1 : ℤ), ([] : List Char))
        let ed := u1.takeWhile Char.isDigit
        if ed.isEmpty || !(u1.drop ed.length).isEmpty then none
        else some (mant * (10 : ℚ) ^ (esgn * (digitsToNat ed : ℤ)))
      else none

/-- Python's `float(s)`: strip whitespace, optional sign, then either a
case-insensitive `inf`/`infinity`/`nan` or a finite decimal. -/
def pyFloatParse (s : List Char) : Option FVal :=
  let t := stripWS s
  let (neg, t1) :=
    match t with
    | c :: r =>
      if c = '+' then (false, r)
      else if c = '-' then (true, r)
      else (false, c :: r)
    | [] => (false, ([] : List Char))
  if lowerList t1 = "inf".data || lowerList t1 = "infinity".data then
    some (if neg then FVal.ninf else FVal.inf)
  else if lowerList t1 = "nan".data then
    some FVal.nan
  else
    (pyFloatCore t1).map fun q => FVal.finite (if neg then -q else q)

/-- Python's `int(s)` on a string: strip whitespace, optional sign,
a nonempty digit run, nothing left over. -/
def pyIntParse (s : List Char) : Option ℤ :=
  let t := stripWS s
  let (neg, t1) :=
    match t with
    | c :: r =>
      if c = '+' then (false, r)
      else if c = '-' then (true, r)
      else (false, c :: r)
    | [] => (false, ([] : List Char))
  match t1 with
  | [] => none
  | _ =>
    if t1.all Char.isDigit then
      some (if neg then -(digitsToNat t1 : ℤ) else (digitsToNat t1 : ℤ))
    else none

/-- The `MeshData` dataclass: matrix of heights plus declared counts and
bounds.  The matrix is the numpy array built from the parsed rows. -/
structure MeshData where
  matrix : List (List FVal)
  x_count : ℤ
  y_count : ℤ
  min_x : FVal
  max_x : FVal
  min_y : FVal
  max_y : FVal
deriving DecidableEq, Repr

/-- `np.array(points_data)` on a list of rows of floats: the empty list
gives the empty (0,)-shaped array; rows of equal lengths give the 2-D
array; inhomogeneous (ragged) rows raise `ValueError`, modelled as
`none`. -/
def np_array (rows : List (List FVal)) : Option (List (List FVal)) :=
  match rows with
  | [] => some []
  | r :: rs =>
    if rs.all (fun row => row.length == r.length) then some (r :: rs) else none

/-- The shape of the numpy array held in `matrix`, as numpy reports it:
`(0,)` for the empty array, `(rows, cols)` otherwise (the arrays produced
by `np_array` are rectangular, so the first row's length is the column
count). -/
def npShape (m : List (List FVal)) : List ℤ :=
  match m with
  | [] => [0]
  | r :: _ => [(m.length : ℤ), (r.length : ℤ)]

/-- `np.abs(v) > 10` for one element: `abs nan = nan` and `nan > 10` is
false; infinities exceed the bound. -/
def absGT10 : FVal → Bool
  | FVal.finite q => decide (10 < |q|)
  | FVal.nan => false
  | FVal.inf => true
  | FVal.ninf => true

/-- `np.isnan` on one element. -/
def FVal.isNanB : FVal → Bool
  | FVal.nan => true
  | _ => false

/-- `np.isinf` on one element. -/
def FVal.isInfB : FVal → Bool
  | FVal.inf => true
  | FVal.ninf => true
  | _ => false

/-- `KlipperMeshParser.validate_mesh_data`: shape check against the
declared counts, then the range check `np.any(np.abs(matrix) > 10)`, then
the finiteness check; true only when all three pass. -/
def validate_mesh_data (md : MeshData) : Bool :=
  if npShape md.matrix = [md.x_count, md.y_count] then
    if md.matrix.any (fun r => r.any absGT10) then false
    else if md.matrix.any (fun r => r.any FVal.isNanB)
         || md.matrix.any (fun r => r.any FVal.isInfB) then false
    else true
  else false

/-- One iteration of the points loop on one line, parameterised by the
compiled point pattern: when the search matches, `group(0)` has the marker
removed, is split on commas, each piece stripped and converted by `float`;
a conversion failure is the exception that aborts the whole parse.
`none` means the line is skipped. -/
def pointRowOfLineP (pat : List Char → Option (List Char))
    (line : List Char) : Option (Except (List Char) (List FVal)) :=
  match pat line with
  | none => none
  | some g0 =>
    let pieces := splitOnChar ',' (removeMarker g0)
    some
      (match pieces.mapM (fun p => pyFloatParse (stripWS p)) with
       | some vs => Except.ok vs
       | none => Except.error "could not convert string to float".data)

/-- The points loop over all lines: skipped lines contribute nothing, a
conversion failure aborts with the exception, otherwise the rows come in
line order. -/
def collectPointsP (pat : List Char → Option (List Char)) :
    List (List Char) → Except (List Char) (List (List FVal))
  | [] => Except.ok []
  | l :: ls =>
    match pointRowOfLineP pat l with
    | none => collectPointsP pat ls
    | some (Except.error e) => Except.error e
    | some (Except.ok row) => (collectPointsP pat ls).map fun rest => row :: rest

/-- The parameters loop: every line whose search matches contributes its
`(key, value)` pair, in line order. -/
def collectParamsP (pat : List Char → Option (List Char × List Char))
    (lines : List (List Char)) : List (List Char × List Char) :=
  lines.filterMap pat

/-- Dictionary lookup on the accumulated pairs: later occurrences of a key
overwrite earlier ones (`params[key] = value`), so the last pair wins. -/
def lookupLast (ps : List (List Char × List Char)) (k : List Char) :
    Option (List Char) :=
  match ps.reverse.find? (fun p => p.1 == k) with
  | some p => some p.2
  | none => none

/-- The six required parameter names. -/
def requiredParams : List (List Char) :=
  ["x_count".data, "y_count".data, "min_x".data, "max_x".data,
   "min_y".data, "max_y".data]

/-- The six conversions `int(params[..])` / `float(params[..])` performed
inside the `MeshData(...)` construction; any lookup or conversion failure
is an exception. -/
def convParams (ps : List (List Char × List Char)) :
    Option (ℤ × ℤ × FVal × FVal × FVal × FVal) := do
  let xs ← lookupLast ps "x_count".data
  let x ← pyIntParse xs
  let ys ← lookupLast ps "y_count".data
  let y ← pyIntParse ys
  let mxs ← lookupLast ps "min_x".data
  let mx ← pyFloatParse mxs
  let mxs2 ← lookupLast ps "max_x".data
  let mx2 ← pyFloatParse mxs2
  let mys ← lookupLast ps "min_y".data
  let my ← pyFloatParse mys
  let mys2 ← lookupLast ps "max_y".data
  let my2 ← pyFloatParse mys2
  pure (x, y, mx, mx2, my, my2)

/-- The body of the `try` block of `parse_config_file`, parameterised by
the two compiled patterns: split into lines, collect point rows, collect
parameters, check the six required keys (raising
"Missing required mesh parameters" when one is absent), build the numpy
array (raising on ragged rows), convert the parameters and construct the
`MeshData`.  `Except.error` is the exception that reaches the handler. -/
def parse_bodyP (pointPat : List Char → Option (List Char))
    (paramPat : List Char → Option (List Char × List Char))
    (content : List Char) : Except (List Char) MeshData :=
  let lines := splitOnChar '\n' content
  match collectPointsP pointPat lines with
  | Except.error e => Except.error e
  | Except.ok points_data =>
    let params := collectParamsP paramPat lines
    if requiredParams.all (fun k => (lookupLast params k).isSome) then
      match np_array points_data with
      | none =>
        Except.error "setting an array element with a sequence".data
      | some height_matrix =>
        match convParams params with
        | none => Except.error "invalid literal".data
        | some (x, y, mnx, mxx, mny, mxy) =>
          Except.ok
            { matrix := height_matrix, x_count := x, y_count := y,
              min_x := mnx, max_x := mxx, min_y := mny, max_y := mxy }
    else Except.error "Missing required mesh parameters".data

/-- The `try` body with the two patterns compiled in `__init__`. -/
def parse_body (content : List Char) : Except (List Char) MeshData :=
  parse_bodyP pointSearch paramSearch content

/-- `KlipperMeshParser.parse_config_file`: the `try` body with every
exception caught and converted to `None` (the exception message is printed
and discarded). -/
def parse_config_file (content : List Char) : Option MeshData :=
  (parse_body content).toOption

/-- The parser object: its only state is the two compiled patterns set in
`__init__`, never written afterwards. -/
structure KlipperMeshParser where
  point_pattern : List Char → Option (List Char)
  param_pattern : List Char → Option (List Char × List Char)

/-- `KlipperMeshParser.__init__`: compile the two patterns. -/
def KlipperMeshParser.init : KlipperMeshParser :=
  { point_pattern := pointSearch, param_pattern := paramSearch }

/-- The `parse_config_file` method as a state-passing function on the
parser object: it reads the compiled patterns and returns the object
unchanged (the method body performs no assignment to `self`). -/
def KlipperMeshParser.parse (self : KlipperMeshParser) (content : List Char) :
    Option MeshData × KlipperMeshParser :=
  ((parse_bodyP self.point_pattern self.param_pattern content).toOption, self)

/-! ### Validator value predicates -/

/-- A finite value within the plausibility bound. -/
def isFiniteInRange (v : FVal) : Bool :=
  match v with
  | FVal.finite q => decide (|q| ≤ 10)
  | _ => false

/-- A finite value whose magnitude exceeds the bound. -/
def exceeds10 (v : FVal) : Bool :=
  match v with
  | FVal.finite q => decide (10 < |q|)
  | _ => false

/-- Not-a-number or an infinity. -/
def isSpecialVal (v : FVal) : Bool :=
  v.isNanB || v.isInfB

/-! ### Well-formed inputs: decimal literals and generated content

`DecLit` is a decimal literal `-?digits.digits` exactly as the point
pattern recognises one; `mkContent` assembles the canonical well-formed
configuration text from a grid of literals and parameter values. -/

structure DecLit where
  neg : Bool
  ip : List Char
  fp : List Char
deriving DecidableEq, Repr

/-- Structural well-formedness: both digit runs nonempty and all digits. -/
def DecLit.wf (d : DecLit) : Bool :=
  !d.ip.isEmpty && !d.fp.isEmpty && d.ip.all Char.isDigit && d.fp.all Char.isDigit

/-- The text of the literal. -/
def DecLit.render (d : DecLit) : List Char :=
  (if d.neg then ['-'] else []) ++ d.ip ++ '.' :: d.fp

/-- The magnitude of the literal as an exact rational. -/
def DecLit.mant (d : DecLit) : ℚ :=
  (digitsToNat d.ip : ℚ) + (digitsToNat d.fp : ℚ) / (10 : ℚ) ^ d.fp.length

/-- The signed value of the literal. -/
def DecLit.val (d : DecLit) : ℚ :=
  if d.neg then -d.mant else d.mant

/-- Text of the continuation of a row after its first literal:
`", lit"` for each further literal. -/
def renderTail : List DecLit → List Char
  | [] => []
  | d :: ds => ',' :: ' ' :: (d.render ++ renderTail ds)

/-- Text of a whole comma-separated row of literals. -/
def renderRun : List DecLit → List Char
  | [] => []
  | d :: ds => d.render ++ renderTail ds

/-- Trailing content that cannot extend a matched number list: it neither
continues the last number with more digits nor supplies a further
`,\s*number` group. -/
def cantExtend : List Char → Bool
  | [] => true
  | c :: u =>
    if c = ',' then (parseNumber (u.drop (u.takeWhile isSpaceC).length)).isNone
    else !c.isDigit

/-- A numeric-row line: marker, one space, the rendered row. -/
def mkPointLine (run : List DecLit) : List Char :=
  '#' :: '*' :: '#' :: ' ' :: renderRun run

/-- A parameter line: marker, one space, `key = value`. -/
def mkParamLine (key value : List Char) : List Char :=
  '#' :: '*' :: '#' :: ' ' :: (key ++ ' ' :: '=' :: ' ' :: value)

/-- Join lines with newlines (no trailing newline). -/
def joinLines : List (List Char) → List Char
  | [] => []
  | [l] => l
  | l :: ls => l ++ '\n' :: joinLines ls

/-- The canonical well-formed configuration text for a grid of literals:
one numeric-row line per grid row, then the six parameter lines, with
`x_count`/`y_count` given as digit strings and the bounds as literals. -/
def mkContent (grid : List (List DecLit)) (xcS ycS : List Char)
    (b1 b2 b3 b4 : DecLit) : List Char :=
  joinLines (grid.map mkPointLine ++
    [mkParamLine "x_count".data xcS,
     mkParamLine "y_count".data ycS,
     mkParamLine "min_x".data b1.render,
     mkParamLine "max_x".data b2.render,
     mkParamLine "min_y".data b3.render,
     mkParamLine "max_y".data b4.render])


/-- Concrete configuration text with ragged numeric rows (lengths 2 and 1)
and all six required parameters present with parseable values. -/
def raggedContent : List Char :=
  ("#*# 1.0, 2.0\n#*# 3.0\n#*# x_count = 2\n#*# y_count = 2\n#*# min_x = 0.0\n#*# max_x = 200.0\n#*# min_y = 0.0\n#*# max_y = 200.0").data

/-- Concrete configuration text in which `max_y` is never declared. -/
def missingParamContent : List Char :=
  ("#*# 1.0, 2.0\n#*# x_count = 1\n#*# y_count = 2\n#*# min_x = 0.0\n#*# max_x = 200.0\n#*# min_y = 0.0").data

/-- The literals of the worked example in the documentation:
`0.012`, `-0.034`, `1.001`, `0.998`, and bounds `0.0` / `200.0`. -/
def litA : DecLit := ⟨false, ['0'], ['0', '1', '2']⟩

def litB : DecLit := ⟨true, ['0'], ['0', '3', '4']⟩

def litC : DecLit := ⟨false, ['1'], ['0', '0', '1']⟩

def litD : DecLit := ⟨false, ['0'], ['9', '9', '8']⟩

def litZero : DecLit := ⟨false, ['0'], ['0']⟩

def lit200 : DecLit := ⟨false, ['2', '0', '0'], ['0']⟩

/-- The 2-by-2 grid of the worked example. -/
def specGrid : List (List DecLit) := [[litA, litB], [litC, litD]]

/-! ### Character-class facts -/

theorem digit_toNat_bounds {c : Char} (h : c.isDigit = true) :
    48 ≤ c.val.toNat ∧ c.val.toNat ≤ 57 := by
  unfold Char.isDigit at h
  rw [Bool.and_eq_true] at h
  obtain ⟨h1, h2⟩ := h
  rw [decide_eq_true_iff] at h1 h2
  exact ⟨UInt32.le_toNat_of_le (by decide) h1, UInt32.toNat_le_of_le (by decide) h2⟩

theorem char_ne_of_toNat {c d : Char} (h : c.val.toNat ≠ d.val.toNat) : c ≠ d := by
  intro e
  exact h (congrArg (fun x => x.val.toNat) e)

theorem digit_ne {c d : Char} (h : c.isDigit = true)
    (hd : d.val.toNat < 48 ∨ 57 < d.val.toNat) : c ≠ d := by
  obtain ⟨h1, h2⟩ := digit_toNat_bounds h
  refine char_ne_of_toNat ?_
  omega

theorem digit_not_space {c : Char} (h : c.isDigit = true) : isSpaceC c = false := by
  have s1 : c ≠ ' ' := digit_ne h (by decide)
  have s2 : c ≠ '\t' := digit_ne h (by decide)
  have s3 : c ≠ '\n' := digit_ne h (by decide)
  have s4 : c ≠ '\r' := digit_ne h (by decide)
  have s5 : c ≠ Char.ofNat 11 := digit_ne h (by decide)
  have s6 : c ≠ Char.ofNat 12 := digit_ne h (by decide)
  simp [isSpaceC, s1, s2, s3, s4, s5, s6]

theorem digit_not_hash {c : Char} (h : c.isDigit = true) : c ≠ '#' :=
  digit_ne h (by decide)

theorem digit_not_comma {c : Char} (h : c.isDigit = true) : c ≠ ',' :=
  digit_ne h (by decide)

theorem digit_not_minus {c : Char} (h : c.isDigit = true) : c ≠ '-' :=
  digit_ne h (by decide)

theorem digit_not_plus {c : Char} (h : c.isDigit = true) : c ≠ '+' :=
  digit_ne h (by decide)

theorem digit_not_newline {c : Char} (h : c.isDigit = true) : c ≠ '\n' :=
  digit_ne h (by decide)

theorem digit_toLower {c : Char} (h : c.isDigit = true) : c.toLower = c := by
  obtain ⟨_, h2⟩ := digit_toNat_bounds h
  unfold Char.toLower
  have : ¬(c.toNat ≥ 65 ∧ c.toNat ≤ 90) := by
    unfold Char.toNat
    omega
  rw [if_neg this]

theorem digit_isWord {c : Char} (h : c.isDigit = true) : isWordC c = true := by
  simp [isWordC, Char.isAlphanum, h]

/-! ### takeWhile / dropWhile helpers -/

theorem takeWhile_all_append {p : Char → Bool} {a b : List Char}
    (h : ∀ c ∈ a, p c = true) :
    (a ++ b).takeWhile p = a ++ b.takeWhile p := by
  induction a with
  | nil => rfl
  | cons c t ih =>
    have hc : p c = true := h c (List.mem_cons_self c t)
    simp only [List.cons_append, List.takeWhile_cons_of_pos hc]
    rw [ih fun x hx => h x (List.mem_cons_of_mem c hx)]

theorem takeWhile_nil_of_head {p : Char → Bool} {b : List Char}
    (h : ∀ c ∈ b.take 1, p c = false) : b.takeWhile p = [] := by
  cases b with
  | nil => rfl
  | cons c t =>
    have : p c = false := h c (by simp)
    simp [List.takeWhile_cons, this]

theorem takeWhile1_append {p : Char → Bool} {a b : List Char}
    (ha : a ≠ []) (hall : ∀ c ∈ a, p c = true) (hb : b.takeWhile p = []) :
    takeWhile1 p (a ++ b) = some (a, b) := by
  unfold takeWhile1
  rw [takeWhile_all_append hall, hb, List.append_nil]
  have hne : a.isEmpty = false := by
    cases a with
    | nil => exact absurd rfl ha
    | cons _ _ => rfl
  simp only [hne, Bool.false_eq_true, if_false]
  rw [List.drop_left]

theorem dropWhile_all_false {p : Char → Bool} {l : List Char}
    (h : ∀ c ∈ l, p c = false) : l.dropWhile p = l := by
  cases l with
  | nil => rfl
  | cons c t =>
    have : p c = false := h c (List.mem_cons_self c t)
    simp [List.dropWhile_cons, this]

theorem stripWS_no_space {l : List Char} (h : ∀ c ∈ l, isSpaceC c = false) :
    stripWS l = l := by
  unfold stripWS
  rw [dropWhile_all_false h,
      dropWhile_all_false (fun c hc => h c (List.mem_reverse.mp hc)),
      List.reverse_reverse]

theorem stripWS_space_cons {l : List Char} (h : ∀ c ∈ l, isSpaceC c = false) :
    stripWS (' ' :: l) = l := by
  unfold stripWS
  have h1 : (' ' :: l).dropWhile isSpaceC = l.dropWhile isSpaceC := by
    simp [List.dropWhile_cons, isSpaceC]
  rw [h1, dropWhile_all_false h,
      dropWhile_all_false (fun c hc => h c (List.mem_reverse.mp hc)),
      List.reverse_reverse]

/-! ### Search-position lemmas: both patterns begin with the marker, so an
attempt at a position not holding `#` fails, and `search` is unchanged by
hash-free leading content. -/

theorem matchPointAt_not_hash {c : Char} {t : List Char} (h : ¬ c = '#') :
    matchPointAt (c :: t) = none := by
  rw [matchPointAt.eq_def]
  split
  · next t' heq =>
    injection heq with h1 _
    exact absurd h1 h
  · rfl

theorem matchParamAt_not_hash {c : Char} {t : List Char} (h : ¬ c = '#') :
    matchParamAt (c :: t) = none := by
  rw [matchParamAt.eq_def]
  split
  · next t' heq =>
    injection heq with h1 _
    exact absurd h1 h
  · rfl

theorem pointSearch_cons (c : Char) (t : List Char) :
    pointSearch (c :: t) =
      match matchPointAt (c :: t) with
      | some g => some g
      | none => pointSearch t := rfl

theorem paramSearch_cons (c : Char) (t : List Char) :
    paramSearch (c :: t) =
      match matchParamAt (c :: t) with
      | some g => some g
      | none => paramSearch t := rfl

theorem pointSearch_append_noHash {pre rest : List Char}
    (h : ∀ c ∈ pre, ¬ c = '#') :
    pointSearch (pre ++ rest) = pointSearch rest := by
  induction pre with
  | nil => rfl
  | cons c t ih =>
    have hc : ¬ c = '#' := h c (List.mem_cons_self c t)
    rw [List.cons_append, pointSearch_cons, matchPointAt_not_hash hc]
    exact ih fun x hx => h x (List.mem_cons_of_mem c hx)

theorem paramSearch_append_noHash {pre rest : List Char}
    (h : ∀ c ∈ pre, ¬ c = '#') :
    paramSearch (pre ++ rest) = paramSearch rest := by
  induction pre with
  | nil => rfl
  | cons c t ih =>
    have hc : ¬ c = '#' := h c (List.mem_cons_self c t)
    rw [List.cons_append, paramSearch_cons, matchParamAt_not_hash hc]
    exact ih fun x hx => h x (List.mem_cons_of_mem c hx)

theorem pointSearch_noHash {l : List Char} (h : ∀ c ∈ l, ¬ c = '#') :
    pointSearch l = none := by
  have hx := @pointSearch_append_noHash l [] h
  rw [List.append_nil] at hx
  rw [hx]
  rfl

theorem paramSearch_noHash {l : List Char} (h : ∀ c ∈ l, ¬ c = '#') :
    paramSearch l = none := by
  have hx := @paramSearch_append_noHash l [] h
  rw [List.append_nil] at hx
  rw [hx]
  rfl

/-- An anchored point attempt on a string that starts with `#` but whose
tail holds no further `#` can only succeed when the tail starts with
`*#`. -/
theorem matchPointAt_hash_shape {t : List Char}
    (hs : ∀ t', t ≠ '*' :: '#' :: t') :
    matchPointAt ('#' :: t) = none := by
  rw [matchPointAt.eq_def]
  split
  · next t' heq =>
    injection heq with _ h2
    have h3 : t = '*' :: '#' :: t' := h2
    exact absurd h3 (hs t')
  · rfl

theorem matchParamAt_hash_shape {t : List Char}
    (hs : ∀ t', t ≠ '*' :: '#' :: t') :
    matchParamAt ('#' :: t) = none := by
  rw [matchParamAt.eq_def]
  split
  · next t' heq =>
    injection heq with _ h2
    have h3 : t = '*' :: '#' :: t' := h2
    exact absurd h3 (hs t')
  · rfl

/-- On a full line `#*#tail` whose tail holds no `#`, the point search is
decided entirely by the attempt at position 0. -/
theorem pointSearch_marker_line {tail : List Char}
    (h : ∀ c ∈ tail, ¬ c = '#') :
    pointSearch ('#' :: '*' :: '#' :: tail) =
      match matchPointAt ('#' :: '*' :: '#' :: tail) with
      | some g => some g
      | none => none := by
  rw [pointSearch_cons]
  cases hm : matchPointAt ('#' :: '*' :: '#' :: tail) with
  | some g => rfl
  | none =>
    have h1 : matchPointAt ('*' :: '#' :: tail) = none :=
      matchPointAt_not_hash (by decide)
    have h2 : matchPointAt ('#' :: tail) = none := by
      refine matchPointAt_hash_shape ?_
      intro t' he
      have : '#' ∈ tail := by
        rw [he]
        exact List.mem_cons_of_mem _ (List.mem_cons_self _ _)
      exact absurd rfl (h '#' this)
    rw [pointSearch_cons, h1, pointSearch_cons, h2, pointSearch_noHash h]

theorem paramSearch_marker_line {tail : List Char}
    (h : ∀ c ∈ tail, ¬ c = '#') :
    paramSearch ('#' :: '*' :: '#' :: tail) =
      match matchParamAt ('#' :: '*' :: '#' :: tail) with
      | some g => some g
      | none => none := by
  rw [paramSearch_cons]
  cases hm : matchParamAt ('#' :: '*' :: '#' :: tail) with
  | some g => rfl
  | none =>
    have h1 : matchParamAt ('*' :: '#' :: tail) = none :=
      matchParamAt_not_hash (by decide)
    have h2 : matchParamAt ('#' :: tail) = none := by
      refine matchParamAt_hash_shape ?_
      intro t' he
      have : '#' ∈ tail := by
        rw [he]
        exact List.mem_cons_of_mem _ (List.mem_cons_self _ _)
      exact absurd rfl (h '#' this)
    rw [paramSearch_cons, h1, paramSearch_cons, h2, paramSearch_noHash h]

theorem checks_of_inRange {v : FVal} (h : isFiniteInRange v = true) :
    absGT10 v = false ∧ FVal.isNanB v = false ∧ FVal.isInfB v = false := by
  cases v with
  | finite q =>
    refine ⟨?_, rfl, rfl⟩
    unfold isFiniteInRange at h
    rw [decide_eq_true_iff] at h
    unfold absGT10
    rw [decide_eq_false_iff_not]
    exact not_lt.mpr h
  | nan => exact absurd h (by decide)
  | inf => exact absurd h (by decide)
  | ninf => exact absurd h (by decide)

theorem validate_true_of_inRange {md : MeshData}
    (hs : npShape md.matrix = [md.x_count, md.y_count])
    (hr : ∀ r ∈ md.matrix, ∀ v ∈ r, isFiniteInRange v = true) :
    validate_mesh_data md = true := by
  unfold validate_mesh_data
  have habs : md.matrix.any (fun r => r.any absGT10) = false := by
    rw [List.any_eq_false]
    intro r hrm
    rw [Bool.not_eq_true, List.any_eq_false]
    intro v hv
    rw [Bool.not_eq_true]
    exact (checks_of_inRange (hr r hrm v hv)).1
  have hnan : md.matrix.any (fun r => r.any FVal.isNanB) = false := by
    rw [List.any_eq_false]
    intro r hrm
    rw [Bool.not_eq_true, List.any_eq_false]
    intro v hv
    rw [Bool.not_eq_true]
    exact (checks_of_inRange (hr r hrm v hv)).2.1
  have hinf : md.matrix.any (fun r => r.any FVal.isInfB) = false := by
    rw [List.any_eq_false]
    intro r hrm
    rw [Bool.not_eq_true, List.any_eq_false]
    intro v hv
    rw [Bool.not_eq_true]
    exact (checks_of_inRange (hr r hrm v hv)).2.2
  simp [hs, habs, hnan, hinf]

theorem validate_false_of_exceeds {md : MeshData}
    (h : ∃ r ∈ md.matrix, ∃ v ∈ r, exceeds10 v = true) :
    validate_mesh_data md = false := by
  obtain ⟨r, hrm, v, hv, hx⟩ := h
  have habs : absGT10 v = true := by
    cases v with
    | finite q => exact hx
    | nan => exact absurd hx (by decide)
    | inf => rfl
    | ninf => rfl
  unfold validate_mesh_data
  by_cases hs : npShape md.matrix = [md.x_count, md.y_count]
  · have hany : md.matrix.any (fun row => row.any absGT10) = true :=
      List.any_eq_true.mpr ⟨r, hrm, List.any_eq_true.mpr ⟨v, hv, habs⟩⟩
    simp [hs, hany]
  · simp [hs]

theorem validate_false_of_special {md : MeshData}
    (h : ∃ r ∈ md.matrix, ∃ v ∈ r, isSpecialVal v = true) :
    validate_mesh_data md = false := by
  obtain ⟨r, hrm, v, hv, hsp⟩ := h
  unfold validate_mesh_data
  by_cases hs : npShape md.matrix = [md.x_count, md.y_count]
  · by_cases habs : md.matrix.any (fun row => row.any absGT10) = true
    · simp [hs, habs]
    · cases v with
      | finite q => exact absurd hsp (by simp [isSpecialVal, FVal.isNanB, FVal.isInfB])
      | nan =>
        have hnan : md.matrix.any (fun row => row.any FVal.isNanB) = true :=
          List.any_eq_true.mpr ⟨r, hrm, List.any_eq_true.mpr ⟨FVal.nan, hv, rfl⟩⟩
        rw [Bool.not_eq_true] at habs
        simp [hs, habs, hnan]
      | inf =>
        exact absurd
          (List.any_eq_true.mpr ⟨r, hrm, List.any_eq_true.mpr ⟨FVal.inf, hv, rfl⟩⟩)
          habs
      | ninf =>
        exact absurd
          (List.any_eq_true.mpr ⟨r, hrm, List.any_eq_true.mpr ⟨FVal.ninf, hv, rfl⟩⟩)
          habs
  · simp [hs]

theorem validate_false_of_shape {md : MeshData}
    (hs : npShape md.matrix ≠ [md.x_count, md.y_count]) :
    validate_mesh_data md = false := by
  unfold validate_mesh_data
  simp [hs]

/-! ### Parse-level lemmas -/

theorem np_array_ragged {rows : List (List FVal)}
    (h : ∃ r ∈ rows, ∃ r' ∈ rows, r.length ≠ r'.length) :
    np_array rows = none := by
  obtain ⟨r, hr, r', hr', hne⟩ := h
  cases rows with
  | nil => exact absurd hr (List.not_mem_nil r)
  | cons r0 rs =>
    unfold np_array
    have hall : rs.all (fun row => row.length == r0.length) = false := by
      by_contra hx
      rw [Bool.not_eq_false, List.all_eq_true] at hx
      have hlen : ∀ x ∈ r0 :: rs, x.length = r0.length := by
        intro x hxm
        rcases List.mem_cons.mp hxm with he | hm
        · rw [he]
        · exact beq_iff_eq.mp (hx x hm)
      exact hne ((hlen r hr).trans (hlen r' hr').symm)
    simp [hall]

/-- Any exception in the body is caught: the result is `none` exactly on
`Except.error`, `some` exactly on `Except.ok`. -/
theorem parse_catches (content : List Char) :
    (∃ e, parse_body content = Except.error e ∧ parse_config_file content = none) ∨
    (∃ md, parse_body content = Except.ok md ∧ parse_config_file content = some md) := by
  cases h : parse_body content with
  | error e =>
    left
    exact ⟨e, rfl, by unfold parse_config_file; rw [h]; rfl⟩
  | ok md =>
    right
    exact ⟨md, rfl, by unfold parse_config_file; rw [h]; rfl⟩

theorem parse_body_missing {content : List Char}
    (h : ∃ k ∈ requiredParams,
      lookupLast (collectParamsP paramSearch (splitOnChar '\n' content)) k = none) :
    parse_config_file content = none ∧
    ∀ rows, collectPointsP pointSearch (splitOnChar '\n' content) = Except.ok rows →
      parse_body content = Except.error "Missing required mesh parameters".data := by
  obtain ⟨k, hk, hnone⟩ := h
  have hall : (requiredParams.all fun p =>
      (lookupLast (collectParamsP paramSearch (splitOnChar '\n' content)) p).isSome) = false := by
    rw [Bool.eq_false_iff]
    intro hx
    have := List.all_eq_true.mp hx k hk
    rw [hnone] at this
    exact absurd this (by decide)
  constructor
  · unfold parse_config_file parse_body parse_bodyP
    cases hcp : collectPointsP pointSearch (splitOnChar '\n' content) with
    | error e => simp [hcp, Except.toOption]
    | ok rows => simp [hcp, hall, Except.toOption]
  · intro rows hcp
    unfold parse_body parse_bodyP
    simp [hcp, hall]

theorem parse_none_of_ragged {content : List Char} {rows : List (List FVal)}
    (hcp : collectPointsP pointSearch (splitOnChar '\n' content) = Except.ok rows)
    (hrag : ∃ r ∈ rows, ∃ r' ∈ rows, r.length ≠ r'.length) :
    parse_config_file content = none := by
  have hnp : np_array rows = none := np_array_ragged hrag
  unfold parse_config_file parse_body parse_bodyP
  by_cases hall : (requiredParams.all fun p =>
      (lookupLast (collectParamsP paramSearch (splitOnChar '\n' content)) p).isSome) = true
  · simp [hcp, hall, hnp, Except.toOption]
  · rw [Bool.not_eq_true] at hall
    simp [hcp, hall, Except.toOption]

theorem wf_parts {d : DecLit} (h : d.wf = true) :
    d.ip ≠ [] ∧ d.fp ≠ [] ∧ (∀ c ∈ d.ip, c.isDigit = true) ∧
    (∀ c ∈ d.fp, c.isDigit = true) := by
  unfold DecLit.wf at h
  rw [Bool.and_eq_true, Bool.and_eq_true, Bool.and_eq_true] at h
  obtain ⟨⟨⟨h1, h2⟩, h3⟩, h4⟩ := h
  refine ⟨?_, ?_, ?_, ?_⟩
  · intro e
    rw [e] at h1
    exact absurd h1 (by decide)
  · intro e
    rw [e] at h2
    exact absurd h2 (by decide)
  · exact fun c hc => List.all_eq_true.mp h3 c hc
  · exact fun c hc => List.all_eq_true.mp h4 c hc

/-- Every character of a rendered literal is `-`, `.` or a digit. -/
theorem render_chars {d : DecLit} (h : d.wf = true) :
    ∀ c ∈ d.render, c = '-' ∨ c = '.' ∨ c.isDigit = true := by
  obtain ⟨_, _, hip, hfp⟩ := wf_parts h
  intro c hc
  unfold DecLit.render at hc
  rw [List.mem_append, List.mem_append] at hc
  rcases hc with (hs | hi) | hrest
  · left
    cases hd : d.neg with
    | true => rw [hd] at hs; simpa using hs
    | false => rw [hd] at hs; simp at hs
  · right; right; exact hip c hi
  · rcases List.mem_cons.mp hrest with he | hf
    · right; left; exact he
    · right; right; exact hfp c hf

theorem render_no_hash {d : DecLit} (h : d.wf = true) :
    ∀ c ∈ d.render, ¬ c = '#' := by
  intro c hc
  rcases render_chars h c hc with h1 | h1 | h1
  · rw [h1]; decide
  · rw [h1]; decide
  · exact digit_not_hash h1

theorem render_no_space {d : DecLit} (h : d.wf = true) :
    ∀ c ∈ d.render, isSpaceC c = false := by
  intro c hc
  rcases render_chars h c hc with h1 | h1 | h1
  · rw [h1]; decide
  · rw [h1]; decide
  · exact digit_not_space h1

theorem render_no_comma {d : DecLit} (h : d.wf = true) :
    ∀ c ∈ d.render, ¬ c = ',' := by
  intro c hc
  rcases render_chars h c hc with h1 | h1 | h1
  · rw [h1]; decide
  · rw [h1]; decide
  · exact digit_not_comma h1

theorem render_no_newline {d : DecLit} (h : d.wf = true) :
    ∀ c ∈ d.render, ¬ c = '\n' := by
  intro c hc
  rcases render_chars h c hc with h1 | h1 | h1
  · rw [h1]; decide
  · rw [h1]; decide
  · exact digit_not_newline h1

/-- The first character of a rendered literal is `-` or a digit, hence the
leading whitespace run of `render ++ x` is empty. -/
theorem render_head {d : DecLit} (h : d.wf = true) :
    ∃ c t, d.render = c :: t ∧ (c = '-' ∨ c.isDigit = true) := by
  obtain ⟨hip, _, hdig, _⟩ := wf_parts h
  unfold DecLit.render
  cases hd : d.neg with
  | true =>
    exact ⟨'-', d.ip ++ '.' :: d.fp, by simp, Or.inl rfl⟩
  | false =>
    cases hi : d.ip with
    | nil => exact absurd hi hip
    | cons c t =>
      refine ⟨c, t ++ '.' :: d.fp, by simp, Or.inr ?_⟩
      exact hdig c (by rw [hi]; exact List.mem_cons_self c t)

theorem takeWhile_space_render {d : DecLit} {x : List Char} (h : d.wf = true) :
    (d.render ++ x).takeWhile isSpaceC = [] := by
  obtain ⟨c, t, he, hc⟩ := render_head h
  rw [he, List.cons_append]
  refine takeWhile_nil_of_head ?_
  intro c' hc'
  simp only [List.take, List.mem_singleton] at hc'
  rw [hc']
  rcases hc with h1 | h1
  · rw [h1]; decide
  · exact digit_not_space h1

/-! ### Number-list lemmas on rendered rows -/

theorem takeWhile_all {p : Char → Bool} {l : List Char}
    (h : ∀ c ∈ l, p c = true) : l.takeWhile p = l := by
  induction l with
  | nil => rfl
  | cons c t ih =>
    rw [List.takeWhile_cons_of_pos (h c (List.mem_cons_self c t))]
    rw [ih fun x hx => h x (List.mem_cons_of_mem c hx)]

theorem parseNumber_minus (t : List Char) :
    parseNumber ('-' :: t) =
      match takeWhile1 Char.isDigit t with
      | none => none
      | some (ip, s2) =>
        match s2 with
        | c :: s3 =>
          if c = '.' then
            match takeWhile1 Char.isDigit s3 with
            | none => none
            | some (fp, s4) => some ('-' :: (ip ++ '.' :: fp), s4)
          else none
        | [] => none := by rfl

theorem parseNumber_nosign {c : Char} (t : List Char) (hc1 : ¬ c = '-') :
    parseNumber (c :: t) =
      match takeWhile1 Char.isDigit (c :: t) with
      | none => none
      | some (ip, s2) =>
        match s2 with
        | c' :: s3 =>
          if c' = '.' then
            match takeWhile1 Char.isDigit s3 with
            | none => none
            | some (fp, s4) => some (ip ++ '.' :: fp, s4)
          else none
        | [] => none := by
  unfold parseNumber
  rw [show (match c :: t with
      | c :: t => if c = '-' then (['-'], t) else (([] : List Char), c :: t)
      | [] => (([] : List Char), ([] : List Char))) =
      (if c = '-' then (['-'], t) else (([] : List Char), c :: t)) from rfl]
  rw [if_neg hc1]
  rfl

/-- A rendered literal followed by digit-free rest parses as exactly the
literal. -/
theorem parseNumber_render {d : DecLit} {rest : List Char} (h : d.wf = true)
    (hrest : rest.takeWhile Char.isDigit = []) :
    parseNumber (d.render ++ rest) = some (d.render, rest) := by
  obtain ⟨hip, hfp, hdip, hdfp⟩ := wf_parts h
  have hdot : ('.' :: (d.fp ++ rest)).takeWhile Char.isDigit = [] := by
    refine takeWhile_nil_of_head ?_
    intro c hc
    simp only [List.take, List.mem_singleton] at hc
    rw [hc]
    decide
  have tw1 : takeWhile1 Char.isDigit (d.ip ++ ('.' :: (d.fp ++ rest))) =
      some (d.ip, '.' :: (d.fp ++ rest)) :=
    takeWhile1_append hip hdip hdot
  have tw2 : takeWhile1 Char.isDigit (d.fp ++ rest) = some (d.fp, rest) :=
    takeWhile1_append hfp hdfp hrest
  cases hneg : d.neg with
  | true =>
    have hr : d.render ++ rest = '-' :: (d.ip ++ ('.' :: (d.fp ++ rest))) := by
      unfold DecLit.render
      rw [hneg]
      simp
    rw [hr, parseNumber_minus, tw1]
    simp only [tw2, if_pos rfl]
    unfold DecLit.render
    rw [hneg]
    simp
  | false =>
    obtain ⟨c0, ipt, hie⟩ : ∃ c0 ipt, d.ip = c0 :: ipt := by
      cases hi : d.ip with
      | nil => exact absurd hi hip
      | cons a b => exact ⟨a, b, rfl⟩
    have hc0 : c0.isDigit = true := hdip c0 (by rw [hie]; exact List.mem_cons_self c0 ipt)
    have hr : d.render ++ rest = c0 :: (ipt ++ ('.' :: (d.fp ++ rest))) := by
      unfold DecLit.render
      rw [hneg, hie]
      simp
    rw [hr, parseNumber_nosign _ (digit_not_minus hc0)]
    have tw1' : takeWhile1 Char.isDigit (c0 :: (ipt ++ ('.' :: (d.fp ++ rest)))) =
        some (d.ip, '.' :: (d.fp ++ rest)) := by
      rw [show c0 :: (ipt ++ ('.' :: (d.fp ++ rest))) =
          (c0 :: ipt) ++ ('.' :: (d.fp ++ rest)) from rfl, ← hie]
      exact tw1
    rw [tw1']
    simp only [tw2, if_pos rfl]
    unfold DecLit.render
    rw [hneg, hie]
    simp

/-- Trailing content that cannot extend a run starts with no digit. -/
theorem cantExtend_no_digit {trailing : List Char}
    (ht : cantExtend trailing = true) :
    trailing.takeWhile Char.isDigit = [] := by
  cases trailing with
  | nil => rfl
  | cons c u =>
    simp only [cantExtend] at ht
    by_cases hc : c = ','
    · subst hc
      exact takeWhile_nil_of_head (by intro x hx; simp at hx; rw [hx]; decide)
    · rw [if_neg hc] at ht
      rw [Bool.not_eq_true'] at ht
      exact takeWhile_nil_of_head (by intro x hx; simp at hx; rw [hx]; exact ht)

/-- The continuation after the first rendered literal starts with no
digit: either a comma or the non-extending trailing content. -/
theorem renderTail_no_digit {ds : List DecLit} {trailing : List Char}
    (ht : cantExtend trailing = true) :
    (renderTail ds ++ trailing).takeWhile Char.isDigit = [] := by
  cases ds with
  | nil => exact cantExtend_no_digit ht
  | cons d ds =>
    refine takeWhile_nil_of_head ?_
    intro x hx
    simp only [renderTail, List.cons_append, List.take, List.mem_singleton] at hx
    rw [hx]
    decide

/-- Stopping case of the repetition loop: non-extending content is left
untouched. -/
theorem numListAfter_stop {trailing : List Char}
    (ht : cantExtend trailing = true) (fuel : ℕ) (acc : List Char) :
    numListAfter fuel acc trailing = (acc, trailing) := by
  cases fuel with
  | zero => rfl
  | succ f =>
    cases trailing with
    | nil => rfl
    | cons c u =>
      simp only [numListAfter]
      by_cases hc : c = ','
      · subst hc
        simp only [cantExtend, if_pos rfl] at ht
        have hn : parseNumber (u.drop (u.takeWhile isSpaceC).length) = none :=
          Option.isNone_iff_eq_none.mp ht
        simp [if_pos rfl, hn]
      · rw [if_neg hc]

theorem renderTail_length (ds : List DecLit) :
    ds.length ≤ (renderTail ds).length := by
  induction ds with
  | nil => simp [renderTail]
  | cons d t ih =>
    simp only [renderTail, List.length_cons, List.length_append]
    omega

/-- The repetition loop consumes exactly a rendered tail, leaving
non-extending trailing content. -/
theorem numListAfter_render {ds : List DecLit} {trailing : List Char}
    (hwf : ∀ d ∈ ds, d.wf = true) (ht : cantExtend trailing = true) :
    ∀ fuel acc, ds.length ≤ fuel →
      numListAfter fuel acc (renderTail ds ++ trailing) =
        (acc ++ renderTail ds, trailing) := by
  induction ds with
  | nil =>
    intro fuel acc _
    simp only [renderTail, List.nil_append, List.append_nil]
    exact numListAfter_stop ht fuel acc
  | cons d ds ih =>
    intro fuel acc hfuel
    cases fuel with
    | zero => simp at hfuel
    | succ f =>
      have hdwf : d.wf = true := hwf d (List.mem_cons_self d ds)
      have hwf' : ∀ x ∈ ds, x.wf = true := fun x hx => hwf x (List.mem_cons_of_mem d hx)
      have hY : renderTail (d :: ds) ++ trailing =
          ',' :: (' ' :: (d.render ++ (renderTail ds ++ trailing))) := by
        simp [renderTail]
      rw [hY]
      simp only [numListAfter, if_pos trivial]
      have hw : (' ' :: (d.render ++ (renderTail ds ++ trailing))).takeWhile isSpaceC
          = [' '] := by
        rw [List.takeWhile_cons_of_pos (by decide)]
        rw [takeWhile_space_render hdwf]
      have hpn : parseNumber (d.render ++ (renderTail ds ++ trailing)) =
          some (d.render, renderTail ds ++ trailing) :=
        parseNumber_render hdwf (renderTail_no_digit ht)
      simp only [hw, List.length_cons, List.length_nil, List.drop_succ_cons,
        List.drop_zero, hpn]
      rw [ih hwf' f _ (by simpa using Nat.le_of_succ_le_succ hfuel)]
      simp [renderTail]

/-- The full number-list match on a rendered row. -/
theorem parseNumList_render {run : List DecLit} {trailing : List Char}
    (hne : run ≠ []) (hwf : ∀ d ∈ run, d.wf = true)
    (ht : cantExtend trailing = true) :
    parseNumList (renderRun run ++ trailing) = some (renderRun run, trailing) := by
  cases run with
  | nil => exact absurd rfl hne
  | cons d ds =>
    have hdwf : d.wf = true := hwf d (List.mem_cons_self d ds)
    have hwf' : ∀ x ∈ ds, x.wf = true := fun x hx => hwf x (List.mem_cons_of_mem d hx)
    have hY : renderRun (d :: ds) ++ trailing =
        d.render ++ (renderTail ds ++ trailing) := by
      simp [renderRun]
    rw [hY]
    simp only [parseNumList, parseNumber_render hdwf (renderTail_no_digit ht)]
    rw [numListAfter_render hwf' ht _ _ (le_trans (renderTail_length ds)
      (by simp))]
    simp [renderRun]

/-! ### Extraction of a rendered point line -/

theorem matchPointAt_marker (t : List Char) :
    matchPointAt ('#' :: '*' :: '#' :: t) =
      match takeWhile1 isSpaceC t with
      | none => none
      | some (ws, t2) =>
        match parseNumList t2 with
        | none => none
        | some (nl, _) => some ('#' :: '*' :: '#' :: (ws ++ nl)) := by rfl

theorem matchParamAt_marker (t : List Char) :
    matchParamAt ('#' :: '*' :: '#' :: t) =
      match takeWhile1 isSpaceC t with
      | none => none
      | some (_, t1) =>
        match takeWhile1 isWordC t1 with
        | none => none
        | some (key, t2) =>
          match takeWhile1 isSpaceC t2 with
          | none => none
          | some (_, t3) =>
            match t3 with
            | c :: t4 =>
              if c = '=' then
                let k := (t4.takeWhile isSpaceC).length
                if t4.length > k then
                  if k ≥ 1 then some (key, t4.drop k) else none
                else
                  if k ≥ 2 then some (key, t4.drop (k - 1)) else none
              else none
            | [] => none := by rfl

theorem takeWhile1_space_cons {l : List Char} (hl : l.takeWhile isSpaceC = []) :
    takeWhile1 isSpaceC (' ' :: l) = some ([' '], l) := by
  unfold takeWhile1
  rw [List.takeWhile_cons_of_pos (by decide), hl]
  rfl

theorem renderRun_no_space {run : List DecLit} {x : List Char}
    (hne : run ≠ []) (hwf : ∀ d ∈ run, d.wf = true) :
    (renderRun run ++ x).takeWhile isSpaceC = [] := by
  cases run with
  | nil => exact absurd rfl hne
  | cons d ds =>
    rw [show renderRun (d :: ds) ++ x = d.render ++ (renderTail ds ++ x) by
      simp [renderRun]]
    exact takeWhile_space_render (hwf d (List.mem_cons_self d ds))

theorem matchPointAt_render {run : List DecLit} {trailing : List Char}
    (hne : run ≠ []) (hwf : ∀ d ∈ run, d.wf = true)
    (ht : cantExtend trailing = true) :
    matchPointAt ('#' :: '*' :: '#' :: ' ' :: (renderRun run ++ trailing)) =
      some ('#' :: '*' :: '#' :: ' ' :: renderRun run) := by
  rw [matchPointAt_marker]
  rw [takeWhile1_space_cons (renderRun_no_space hne hwf)]
  simp only [parseNumList_render hne hwf ht]
  rfl

theorem pointSearch_render {run : List DecLit} {trailing : List Char}
    (hne : run ≠ []) (hwf : ∀ d ∈ run, d.wf = true)
    (ht : cantExtend trailing = true) :
    pointSearch ('#' :: '*' :: '#' :: ' ' :: (renderRun run ++ trailing)) =
      some ('#' :: '*' :: '#' :: ' ' :: renderRun run) := by
  rw [pointSearch_cons, matchPointAt_render hne hwf ht]

/-! ### Marker removal and comma split on the matched text -/

theorem removeMarker_noHash {l : List Char} (h : ∀ c ∈ l, ¬ c = '#') :
    removeMarker l = l := by
  induction l with
  | nil => rfl
  | cons c t ih =>
    rw [removeMarker.eq_def]
    split
    · next t' heq =>
      injection heq with h1 _
      exact absurd h1 (h c (List.mem_cons_self c t))
    · next c' t' heq =>
      injection heq with h1 h2
      subst h1
      subst h2
      rw [ih fun x hx => h x (List.mem_cons_of_mem c hx)]
    · next heq => exact absurd heq (by simp)

theorem removeMarker_marker (t : List Char) :
    removeMarker ('#' :: '*' :: '#' :: t) = removeMarker t := by rfl

theorem renderTail_chars {ds : List DecLit} (hwf : ∀ d ∈ ds, d.wf = true) :
    ∀ c ∈ renderTail ds, c = ',' ∨ c = ' ' ∨ c ∈ (ds.map DecLit.render).flatten := by
  induction ds with
  | nil => intro c hc; exact absurd hc (by simp [renderTail])
  | cons d ds ih =>
    intro c hc
    simp only [renderTail, List.mem_cons, List.mem_append] at hc
    rcases hc with h1 | h1
    · exact Or.inl h1
    rcases h1 with h2 | h2
    · exact Or.inr (Or.inl h2)
    rcases h2 with h3 | h3
    · right; right
      simp only [List.map_cons, List.flatten]
      exact List.mem_append.mpr (Or.inl h3)
    · rcases ih (fun x hx => hwf x (List.mem_cons_of_mem d hx)) c h3 with
        a | a | a
      · exact Or.inl a
      · exact Or.inr (Or.inl a)
      · right; right
        simp only [List.map_cons, List.flatten]
        exact List.mem_append.mpr (Or.inr a)

theorem renderRun_chars {run : List DecLit} (hwf : ∀ d ∈ run, d.wf = true) :
    ∀ c ∈ renderRun run, c = ',' ∨ c = ' ' ∨ c ∈ (run.map DecLit.render).flatten := by
  cases run with
  | nil => intro c hc; exact absurd hc (by simp [renderRun])
  | cons d ds =>
    intro c hc
    simp only [renderRun, List.mem_append] at hc
    rcases hc with h1 | h1
    · right; right
      simp only [List.map_cons, List.flatten]
      exact List.mem_append.mpr (Or.inl h1)
    · rcases renderTail_chars (fun x hx => hwf x (List.mem_cons_of_mem d hx)) c h1 with
        a | a | a
      · exact Or.inl a
      · exact Or.inr (Or.inl a)
      · right; right
        simp only [List.map_cons, List.flatten]
        exact List.mem_append.mpr (Or.inr a)

theorem join_render_mem {run : List DecLit}
    {c : Char} (hc : c ∈ (run.map DecLit.render).flatten) :
    ∃ d ∈ run, c ∈ d.render := by
  obtain ⟨l, hl, hcl⟩ := List.mem_flatten.mp hc
  obtain ⟨d, hd, he⟩ := List.mem_map.mp hl
  exact ⟨d, hd, he ▸ hcl⟩

theorem renderRun_no_hash {run : List DecLit} (hwf : ∀ d ∈ run, d.wf = true) :
    ∀ c ∈ renderRun run, ¬ c = '#' := by
  intro c hc
  rcases renderRun_chars hwf c hc with h1 | h1 | h1
  · rw [h1]; decide
  · rw [h1]; decide
  · obtain ⟨d, hd, hcd⟩ := join_render_mem h1
    exact render_no_hash (hwf d hd) c hcd

theorem renderRun_no_newline {run : List DecLit} (hwf : ∀ d ∈ run, d.wf = true) :
    ∀ c ∈ renderRun run, ¬ c = '\n' := by
  intro c hc
  rcases renderRun_chars hwf c hc with h1 | h1 | h1
  · rw [h1]; decide
  · rw [h1]; decide
  · obtain ⟨d, hd, hcd⟩ := join_render_mem h1
    exact render_no_newline (hwf d hd) c hcd

/-! ### splitOnChar lemmas -/

theorem splitOnChar_ne_nil (sep : Char) (l : List Char) :
    splitOnChar sep l ≠ [] := by
  cases l with
  | nil => simp [splitOnChar]
  | cons c t =>
    simp only [splitOnChar]
    by_cases hc : c == sep
    · simp [hc]
    · rw [Bool.not_eq_true] at hc
      simp only [hc, Bool.false_eq_true, if_false]
      cases splitOnChar sep t with
      | nil => simp
      | cons h rt => simp

theorem splitOnChar_cons_sep (sep : Char) (t : List Char) :
    splitOnChar sep (sep :: t) = [] :: splitOnChar sep t := by
  simp [splitOnChar]

theorem splitOnChar_append_noSep {sep : Char} {a b : List Char}
    (h : ∀ c ∈ a, ¬ c = sep) :
    splitOnChar sep (a ++ b) =
      ((a ++ (splitOnChar sep b).headI) :: (splitOnChar sep b).tail) := by
  induction a with
  | nil =>
    simp only [List.nil_append]
    cases hs : splitOnChar sep b with
    | nil => exact absurd hs (splitOnChar_ne_nil sep b)
    | cons x xs => simp
  | cons c a' ih =>
    have hc : ¬ c = sep := h c (List.mem_cons_self c a')
    have hcb : (c == sep) = false := by
      rw [beq_eq_false_iff_ne]
      exact hc
    rw [List.cons_append]
    simp only [splitOnChar, hcb, Bool.false_eq_true, if_false]
    rw [ih fun x hx => h x (List.mem_cons_of_mem c hx)]
    simp

/-! ### float/int conversion of rendered values -/

/-- A lower-cased digit-headed string never equals a letter-headed word. -/
theorem lower_ip_append_ne {ip X w : List Char} {c1 : Char} {wt : List Char}
    (hipne : ip ≠ []) (hdig : ∀ c ∈ ip, c.isDigit = true)
    (hw : w = c1 :: wt) (hc1 : c1.isDigit = false) :
    ¬ lowerList (ip ++ X) = w := by
  intro he
  cases ip with
  | nil => exact absurd rfl hipne
  | cons c0 ipt =>
    have hc0 : c0.isDigit = true := hdig c0 (List.mem_cons_self c0 ipt)
    rw [hw] at he
    simp only [lowerList, List.cons_append, List.map_cons] at he
    injection he with h1 _
    rw [digit_toLower hc0] at h1
    rw [h1] at hc0
    rw [hc0] at hc1
    exact absurd hc1 (by decide)

theorem pyFloatCore_render {d : DecLit} (h : d.wf = true) :
    pyFloatCore (d.ip ++ ('.' :: d.fp)) = some d.mant := by
  obtain ⟨hip, hfp, hdip, hdfp⟩ := wf_parts h
  have hdot : ('.' :: d.fp).takeWhile Char.isDigit = [] := by
    refine takeWhile_nil_of_head ?_
    intro c hc
    simp only [List.take, List.mem_singleton] at hc
    rw [hc]
    decide
  have htw : (d.ip ++ ('.' :: d.fp)).takeWhile Char.isDigit = d.ip := by
    rw [takeWhile_all_append hdip, hdot, List.append_nil]
  unfold pyFloatCore
  rw [htw]
  simp only [List.drop_left]
  rw [takeWhile_all hdfp]
  have hipe : d.ip.isEmpty = false := by
    cases hi : d.ip with
    | nil => exact absurd hi hip
    | cons a b => rfl
  simp only [List.drop_length, hipe, Bool.false_and, Bool.false_eq_true, if_false]
  rfl

theorem pyFloatParse_render {d : DecLit} (h : d.wf = true) :
    pyFloatParse d.render = some (FVal.finite d.val) := by
  obtain ⟨hip, hfp, hdip, hdfp⟩ := wf_parts h
  have hstrip : stripWS d.render = d.render := stripWS_no_space (render_no_space h)
  have hinf : ¬ lowerList (d.ip ++ ('.' :: d.fp)) = "inf".data :=
    lower_ip_append_ne hip hdip rfl (by decide)
  have hinfy : ¬ lowerList (d.ip ++ ('.' :: d.fp)) = "infinity".data :=
    lower_ip_append_ne hip hdip rfl (by decide)
  have hnan : ¬ lowerList (d.ip ++ ('.' :: d.fp)) = "nan".data :=
    lower_ip_append_ne hip hdip rfl (by decide)
  cases hneg : d.neg with
  | true =>
    have hr : d.render = '-' :: (d.ip ++ ('.' :: d.fp)) := by
      unfold DecLit.render
      rw [hneg]
      simp
    have hinf1 : ¬ lowerList (d.ip ++ ('.' :: d.fp)) = ['i', 'n', 'f'] := hinf
    have hinf2 : ¬ lowerList (d.ip ++ ('.' :: d.fp)) =
        ['i', 'n', 'f', 'i', 'n', 'i', 't', 'y'] := hinfy
    have hnan1 : ¬ lowerList (d.ip ++ ('.' :: d.fp)) = ['n', 'a', 'n'] := hnan
    unfold pyFloatParse
    rw [hstrip, hr]
    simp [decide_eq_false hinf1, decide_eq_false hinf2, decide_eq_false hnan1,
      pyFloatCore_render h, DecLit.val, hneg]
    exact hnan1
  | false =>
    obtain ⟨c0, ipt, hie⟩ : ∃ c0 ipt, d.ip = c0 :: ipt := by
      cases hi : d.ip with
      | nil => exact absurd hi hip
      | cons a b => exact ⟨a, b, rfl⟩
    have hc0 : c0.isDigit = true := hdip c0 (by rw [hie]; exact List.mem_cons_self c0 ipt)
    have hr : d.render = c0 :: (ipt ++ ('.' :: d.fp)) := by
      unfold DecLit.render
      rw [hneg, hie]
      simp
    have hback : c0 :: (ipt ++ ('.' :: d.fp)) = d.ip ++ ('.' :: d.fp) := by
      rw [hie]
      simp
    have hinf1 : ¬ lowerList (c0 :: (ipt ++ ('.' :: d.fp))) = ['i', 'n', 'f'] := by
      rw [hback]; exact hinf
    have hinf2 : ¬ lowerList (c0 :: (ipt ++ ('.' :: d.fp))) =
        ['i', 'n', 'f', 'i', 'n', 'i', 't', 'y'] := by
      rw [hback]; exact hinfy
    have hnan1 : ¬ lowerList (c0 :: (ipt ++ ('.' :: d.fp))) = ['n', 'a', 'n'] := by
      rw [hback]; exact hnan
    have hcore : pyFloatCore (c0 :: (ipt ++ ('.' :: d.fp))) = some d.mant := by
      rw [hback]; exact pyFloatCore_render h
    unfold pyFloatParse
    rw [hstrip, hr]
    simp [if_neg (digit_not_plus hc0), if_neg (digit_not_minus hc0),
      decide_eq_false hinf1, decide_eq_false hinf2, decide_eq_false hnan1,
      hcore, DecLit.val, hneg]
    exact hnan1

theorem pyIntParse_digits {l : List Char} (hne : l ≠ [])
    (hd : ∀ c ∈ l, c.isDigit = true) :
    pyIntParse l = some (digitsToNat l : ℤ) := by
  obtain ⟨c0, t0, he⟩ : ∃ c0 t0, l = c0 :: t0 := by
    cases hx : l with
    | nil => exact absurd hx hne
    | cons a b => exact ⟨a, b, rfl⟩
  have hc0 : c0.isDigit = true := hd c0 (by rw [he]; exact List.mem_cons_self c0 t0)
  have hstrip : stripWS l = l :=
    stripWS_no_space fun c hc => digit_not_space (hd c hc)
  unfold pyIntParse
  rw [hstrip, he]
  simp only [if_neg (digit_not_plus hc0), if_neg (digit_not_minus hc0)]
  have hall : (c0 :: t0).all Char.isDigit = true :=
    List.all_eq_true.mpr fun c hc => hd c (he ▸ hc)
  simp only [hall, if_pos trivial]
  simp [← he]

theorem splitComma_renderTail {ds : List DecLit} (hwf : ∀ d ∈ ds, d.wf = true) :
    splitOnChar ',' (renderTail ds) = [] :: ds.map (fun d => ' ' :: d.render) := by
  induction ds with
  | nil => rfl
  | cons e es ih =>
    have hewf : e.wf = true := hwf e (List.mem_cons_self e es)
    have hY : renderTail (e :: es) = ',' :: ((' ' :: e.render) ++ renderTail es) := by
      simp [renderTail]
    rw [hY, splitOnChar_cons_sep]
    have hnosep : ∀ c ∈ ' ' :: e.render, ¬ c = ',' := by
      intro c hc
      rcases List.mem_cons.mp hc with h1 | h1
      · rw [h1]; decide
      · exact render_no_comma hewf c h1
    rw [splitOnChar_append_noSep hnosep,
        ih fun x hx => hwf x (List.mem_cons_of_mem e hx)]
    simp

theorem splitComma_run {run : List DecLit} (hne : run ≠ [])
    (hwf : ∀ d ∈ run, d.wf = true) :
    splitOnChar ',' (' ' :: renderRun run) = run.map (fun d => ' ' :: d.render) := by
  cases run with
  | nil => exact absurd rfl hne
  | cons d ds =>
    have hdwf : d.wf = true := hwf d (List.mem_cons_self d ds)
    have hY : ' ' :: renderRun (d :: ds) = (' ' :: d.render) ++ renderTail ds := by
      simp [renderRun]
    have hnosep : ∀ c ∈ ' ' :: d.render, ¬ c = ',' := by
      intro c hc
      rcases List.mem_cons.mp hc with h1 | h1
      · rw [h1]; decide
      · exact render_no_comma hdwf c h1
    rw [hY, splitOnChar_append_noSep hnosep,
        splitComma_renderTail fun x hx => hwf x (List.mem_cons_of_mem d hx)]
    simp

theorem mapM_render {run : List DecLit} (hwf : ∀ d ∈ run, d.wf = true) :
    (run.map (fun d => ' ' :: d.render)).mapM (fun p => pyFloatParse (stripWS p)) =
      some (run.map fun d => FVal.finite d.val) := by
  induction run with
  | nil => rfl
  | cons d ds ih =>
    have hdwf : d.wf = true := hwf d (List.mem_cons_self d ds)
    have hstrip : stripWS (' ' :: d.render) = d.render :=
      stripWS_space_cons (render_no_space hdwf)
    simp only [List.map_cons, List.mapM_cons, hstrip, pyFloatParse_render hdwf,
      ih fun x hx => hwf x (List.mem_cons_of_mem d hx)]
    rfl

/-- Extraction of one rendered numeric-row line (with arbitrary
non-extending trailing content): the matched run of literals becomes the
row, the trailing content is discarded, and no conversion fails. -/
theorem pointLine_extract {run : List DecLit} {trailing : List Char}
    (hne : run ≠ []) (hwf : ∀ d ∈ run, d.wf = true)
    (ht : cantExtend trailing = true) :
    pointRowOfLineP pointSearch (mkPointLine run ++ trailing) =
      some (Except.ok (run.map fun d => FVal.finite d.val)) := by
  have hline : mkPointLine run ++ trailing =
      '#' :: '*' :: '#' :: ' ' :: (renderRun run ++ trailing) := by
    simp [mkPointLine]
  have hrm : removeMarker ('#' :: '*' :: '#' :: ' ' :: renderRun run) =
      ' ' :: renderRun run := by
    rw [removeMarker_marker]
    refine removeMarker_noHash ?_
    intro c hc
    rcases List.mem_cons.mp hc with h1 | h1
    · rw [h1]; decide
    · exact renderRun_no_hash hwf c h1
  rw [hline]
  simp only [pointRowOfLineP, pointSearch_render hne hwf ht, hrm,
    splitComma_run hne hwf, mapM_render hwf]

/-! ### Parameter-line extraction and cross-pattern misses -/

theorem word_toNat_ge {c : Char} (h : isWordC c = true) : 48 ≤ c.val.toNat := by
  unfold isWordC Char.isAlphanum Char.isAlpha Char.isUpper Char.isLower
    Char.isDigit at h
  rw [Bool.or_eq_true, Bool.or_eq_true, Bool.or_eq_true] at h
  rcases h with ((h1 | h1) | h1) | h1
  · rw [Bool.and_eq_true] at h1
    obtain ⟨ha, _⟩ := h1
    rw [decide_eq_true_iff] at ha
    have := @UInt32.le_toNat_of_le c.val 65 (by decide) ha
    omega
  · rw [Bool.and_eq_true] at h1
    obtain ⟨ha, _⟩ := h1
    rw [decide_eq_true_iff] at ha
    have := @UInt32.le_toNat_of_le c.val 97 (by decide) ha
    omega
  · rw [Bool.and_eq_true] at h1
    obtain ⟨ha, _⟩ := h1
    rw [decide_eq_true_iff] at ha
    have := @UInt32.le_toNat_of_le c.val 48 (by decide) ha
    omega
  · have : c = '_' := beq_iff_eq.mp h1
    rw [this]
    decide

theorem word_ne {c d : Char} (h : isWordC c = true)
    (hd : d.val.toNat < 48) : c ≠ d := by
  have hge := word_toNat_ge h
  refine char_ne_of_toNat ?_
  omega

theorem word_not_space {c : Char} (h : isWordC c = true) : isSpaceC c = false := by
  have s1 : c ≠ ' ' := word_ne h (by decide)
  have s2 : c ≠ '\t' := word_ne h (by decide)
  have s3 : c ≠ '\n' := word_ne h (by decide)
  have s4 : c ≠ '\r' := word_ne h (by decide)
  have s5 : c ≠ Char.ofNat 11 := word_ne h (by decide)
  have s6 : c ≠ Char.ofNat 12 := word_ne h (by decide)
  simp [isSpaceC, s1, s2, s3, s4, s5, s6]

theorem word_ne_minus {c : Char} (h : isWordC c = true) : ¬ c = '-' :=
  word_ne h (by decide)

/-- The parameter pattern on a canonical parameter line extracts exactly
the key and the value. -/
theorem paramLine_extract {key value : List Char}
    (hkne : key ≠ []) (hkw : ∀ c ∈ key, isWordC c = true)
    (hvne : value ≠ []) (hvh : value.takeWhile isSpaceC = []) :
    paramSearch (mkParamLine key value) = some (key, value) := by
  have hktw : (key ++ (' ' :: '=' :: ' ' :: value)).takeWhile isSpaceC = [] := by
    refine takeWhile_nil_of_head ?_
    intro c hc
    cases hke : key with
    | nil => exact absurd hke hkne
    | cons k0 kt =>
      rw [hke] at hc
      simp only [List.cons_append, List.take, List.mem_singleton] at hc
      rw [hc]
      exact word_not_space (hkw k0 (by rw [hke]; exact List.mem_cons_self k0 kt))
  have h1 : takeWhile1 isSpaceC (' ' :: (key ++ (' ' :: '=' :: ' ' :: value))) =
      some ([' '], key ++ (' ' :: '=' :: ' ' :: value)) :=
    takeWhile1_space_cons hktw
  have h2 : takeWhile1 isWordC (key ++ (' ' :: '=' :: ' ' :: value)) =
      some (key, ' ' :: '=' :: ' ' :: value) :=
    takeWhile1_append hkne hkw (takeWhile_nil_of_head
      (by intro c hc; simp at hc; rw [hc]; decide))
  have h3 : takeWhile1 isSpaceC (' ' :: '=' :: ' ' :: value) =
      some ([' '], '=' :: ' ' :: value) :=
    takeWhile1_space_cons (by
      refine takeWhile_nil_of_head ?_
      intro c hc
      simp at hc
      rw [hc]
      decide)
  have hk1 : ((' ' :: value).takeWhile isSpaceC).length = 1 := by
    rw [List.takeWhile_cons_of_pos (by decide), hvh]
    rfl
  have hvlen : 1 ≤ value.length := by
    cases hve : value with
    | nil => exact absurd hve hvne
    | cons a b => simp
  have hm : matchParamAt ('#' :: '*' :: '#' ::
      (' ' :: (key ++ (' ' :: '=' :: ' ' :: value)))) = some (key, value) := by
    rw [matchParamAt_marker]
    simp only [h1, h2, h3]
    simp only [hk1, if_pos trivial]
    rw [if_pos (show (' ' :: value).length > 1 by
      simp only [List.length_cons]; omega)]
    rw [if_pos (show 1 ≥ 1 by omega)]
    simp
  rw [show mkParamLine key value =
      '#' :: '*' :: '#' :: (' ' :: (key ++ (' ' :: '=' :: ' ' :: value))) from rfl]
  rw [paramSearch_cons]
  simp only [hm]

/-- A canonical parameter line whose key starts with a letter never
matches the point pattern. -/
theorem pointSearch_paramLine {key value : List Char}
    (hkne : key ≠ []) (hkw : ∀ c ∈ key, isWordC c = true)
    (hkh : ∀ c ∈ key.take 1, c.isDigit = false)
    (hnh : ∀ c ∈ key ++ (' ' :: '=' :: ' ' :: value), ¬ c = '#') :
    pointSearch (mkParamLine key value) = none := by
  obtain ⟨k0, kt, hke⟩ : ∃ k0 kt, key = k0 :: kt := by
    cases hx : key with
    | nil => exact absurd hx hkne
    | cons a b => exact ⟨a, b, rfl⟩
  have hk0w : isWordC k0 = true := hkw k0 (by rw [hke]; exact List.mem_cons_self k0 kt)
  have hk0d : k0.isDigit = false := hkh k0 (by rw [hke]; simp)
  have hktw : (key ++ (' ' :: '=' :: ' ' :: value)).takeWhile isSpaceC = [] := by
    refine takeWhile_nil_of_head ?_
    intro c hc
    rw [hke] at hc
    simp only [List.cons_append, List.take, List.mem_singleton] at hc
    rw [hc]
    exact word_not_space hk0w
  have hmp : matchPointAt ('#' :: '*' :: '#' ::
      (' ' :: (key ++ (' ' :: '=' :: ' ' :: value)))) = none := by
    rw [matchPointAt_marker]
    simp only [takeWhile1_space_cons hktw]
    have hpn : parseNumber (key ++ (' ' :: '=' :: ' ' :: value)) = none := by
      rw [hke, List.cons_append, parseNumber_nosign _ (word_ne_minus hk0w)]
      have : takeWhile1 Char.isDigit (k0 :: (kt ++ (' ' :: '=' :: ' ' :: value))) =
          none := by
        unfold takeWhile1
        rw [List.takeWhile_cons_of_neg (by rw [hk0d]; exact Bool.false_ne_true)]
        rfl
      rw [this]
    have hpl : parseNumList (key ++ (' ' :: '=' :: ' ' :: value)) = none := by
      unfold parseNumList
      rw [hpn]
    simp only [hpl]
  have hnh' : ∀ c ∈ ' ' :: (key ++ (' ' :: '=' :: ' ' :: value)), ¬ c = '#' := by
    intro c hc
    rcases List.mem_cons.mp hc with h1 | h1
    · rw [h1]; decide
    · exact hnh c h1
  rw [show mkParamLine key value =
      '#' :: '*' :: '#' :: (' ' :: (key ++ (' ' :: '=' :: ' ' :: value))) from rfl]
  rw [pointSearch_marker_line hnh', hmp]

/-- A rendered numeric-row line never matches the parameter pattern. -/
theorem paramSearch_pointLine {run : List DecLit}
    (hne : run ≠ []) (hwf : ∀ d ∈ run, d.wf = true) :
    paramSearch (mkPointLine run) = none := by
  cases run with
  | nil => exact absurd rfl hne
  | cons d ds =>
    have hdwf : d.wf = true := hwf d (List.mem_cons_self d ds)
    obtain ⟨hip, hfp, hdip, hdfp⟩ := wf_parts hdwf
    have hnh' : ∀ c ∈ ' ' :: renderRun (d :: ds), ¬ c = '#' := by
      intro c hc
      rcases List.mem_cons.mp hc with h1 | h1
      · rw [h1]; decide
      · exact renderRun_no_hash hwf c h1
    have hmp : matchParamAt ('#' :: '*' :: '#' :: (' ' :: renderRun (d :: ds))) =
        none := by
      have hsp : (renderRun (d :: ds)).takeWhile isSpaceC = [] := by
        have hx := @renderRun_no_space (d :: ds) [] (by simp) hwf
        rw [List.append_nil] at hx
        exact hx
      rw [matchParamAt_marker]
      simp only [takeWhile1_space_cons hsp]
      cases hneg : d.neg with
      | true =>
        have hr : renderRun (d :: ds) =
            '-' :: ((d.ip ++ '.' :: d.fp) ++ renderTail ds) := by
          simp only [renderRun, DecLit.render, hneg, if_pos rfl]
          simp
        rw [hr]
        have hw0 : takeWhile1 isWordC
            ('-' :: ((d.ip ++ '.' :: d.fp) ++ renderTail ds)) = none := by
          unfold takeWhile1
          rw [List.takeWhile_cons_of_neg (by decide)]
          rfl
        simp only [hw0]
      | false =>
        have hr : renderRun (d :: ds) =
            d.ip ++ ('.' :: (d.fp ++ renderTail ds)) := by
          simp only [renderRun, DecLit.render, hneg]
          simp
        rw [hr]
        have hw1 : takeWhile1 isWordC (d.ip ++ ('.' :: (d.fp ++ renderTail ds))) =
            some (d.ip, '.' :: (d.fp ++ renderTail ds)) :=
          takeWhile1_append hip (fun c hc => digit_isWord (hdip c hc))
            (takeWhile_nil_of_head (by intro c hc; simp at hc; rw [hc]; decide))
        have hw2 : takeWhile1 isSpaceC ('.' :: (d.fp ++ renderTail ds)) = none := by
          unfold takeWhile1
          rw [List.takeWhile_cons_of_neg (by decide)]
          rfl
        simp only [hw1, hw2]
    rw [show mkPointLine (d :: ds) =
        '#' :: '*' :: '#' :: (' ' :: renderRun (d :: ds)) from rfl]
    rw [paramSearch_marker_line hnh', hmp]

/-! ### Content assembly: splitting the joined lines recovers the lines -/

theorem splitOnChar_noSep {sep : Char} {l : List Char}
    (h : ∀ c ∈ l, ¬ c = sep) : splitOnChar sep l = [l] := by
  have hx := @splitOnChar_append_noSep sep l [] h
  rw [List.append_nil] at hx
  rw [hx]
  simp [splitOnChar]

theorem splitLines_join {ls : List (List Char)} (hne : ls ≠ [])
    (h : ∀ l ∈ ls, ∀ c ∈ l, ¬ c = '\n') :
    splitOnChar '\n' (joinLines ls) = ls := by
  induction ls with
  | nil => exact absurd rfl hne
  | cons l lt ih =>
    cases lt with
    | nil =>
      exact splitOnChar_noSep fun c hc => h l (List.mem_cons_self l []) c hc
    | cons l2 lt2 =>
      have hj : joinLines (l :: l2 :: lt2) = l ++ ('\n' :: joinLines (l2 :: lt2)) := rfl
      rw [hj, splitOnChar_append_noSep fun c hc => h l (List.mem_cons_self _ _) c hc,
          splitOnChar_cons_sep,
          ih (by simp) fun x hx c hc => h x (List.mem_cons_of_mem l hx) c hc]
      simp

theorem mkPointLine_no_newline {run : List DecLit}
    (hwf : ∀ d ∈ run, d.wf = true) :
    ∀ c ∈ mkPointLine run, ¬ c = '\n' := by
  intro c hc
  unfold mkPointLine at hc
  rcases List.mem_cons.mp hc with h1 | hc2
  · rw [h1]; decide
  rcases List.mem_cons.mp hc2 with h1 | hc3
  · rw [h1]; decide
  rcases List.mem_cons.mp hc3 with h1 | hc4
  · rw [h1]; decide
  rcases List.mem_cons.mp hc4 with h1 | hc5
  · rw [h1]; decide
  · exact renderRun_no_newline hwf c hc5

theorem mkParamLine_no_newline {key value : List Char}
    (hk : ∀ c ∈ key, isWordC c = true)
    (hv : ∀ c ∈ value, ¬ c = '\n') :
    ∀ c ∈ mkParamLine key value, ¬ c = '\n' := by
  intro c hc
  unfold mkParamLine at hc
  rcases List.mem_cons.mp hc with h1 | hc2
  · rw [h1]; decide
  rcases List.mem_cons.mp hc2 with h1 | hc3
  · rw [h1]; decide
  rcases List.mem_cons.mp hc3 with h1 | hc4
  · rw [h1]; decide
  rcases List.mem_cons.mp hc4 with h1 | hc5
  · rw [h1]; decide
  rcases List.mem_append.mp hc5 with h1 | h2
  · exact word_ne (hk c h1) (by decide)
  rcases List.mem_cons.mp h2 with h1 | h3
  · rw [h1]; decide
  rcases List.mem_cons.mp h3 with h1 | h4
  · rw [h1]; decide
  rcases List.mem_cons.mp h4 with h1 | h5
  · rw [h1]; decide
  · exact hv c h5

/-! ### The two accumulation loops on generated lines -/

theorem pointRow_paramLine_none {key value : List Char}
    (hkne : key ≠ []) (hkw : ∀ c ∈ key, isWordC c = true)
    (hkh : ∀ c ∈ key.take 1, c.isDigit = false)
    (hnh : ∀ c ∈ key ++ (' ' :: '=' :: ' ' :: value), ¬ c = '#') :
    pointRowOfLineP pointSearch (mkParamLine key value) = none := by
  unfold pointRowOfLineP
  rw [pointSearch_paramLine hkne hkw hkh hnh]

theorem collectPoints_all_none {ls : List (List Char)}
    (h : ∀ l ∈ ls, pointRowOfLineP pointSearch l = none) :
    collectPointsP pointSearch ls = Except.ok [] := by
  induction ls with
  | nil => rfl
  | cons l lt ih =>
    have h0 : pointRowOfLineP pointSearch l = none := h l (List.mem_cons_self l lt)
    have hrec := ih fun x hx => h x (List.mem_cons_of_mem l hx)
    simp only [collectPointsP, h0, hrec]

theorem collectPoints_points {grid : List (List DecLit)} {rest : List (List Char)}
    (hrne : ∀ run ∈ grid, run ≠ [])
    (hwfg : ∀ run ∈ grid, ∀ d ∈ run, d.wf = true)
    (hrest : collectPointsP pointSearch rest = Except.ok []) :
    collectPointsP pointSearch (grid.map mkPointLine ++ rest) =
      Except.ok (grid.map fun run => run.map fun d => FVal.finite d.val) := by
  induction grid with
  | nil => simpa using hrest
  | cons run grid ih =>
    have h0 : pointRowOfLineP pointSearch (mkPointLine run) =
        some (Except.ok (run.map fun d => FVal.finite d.val)) := by
      have hx := @pointLine_extract run []
        (hrne run (List.mem_cons_self run grid))
        (hwfg run (List.mem_cons_self run grid)) rfl
      rw [List.append_nil] at hx
      exact hx
    have hrec := ih (fun x hx => hrne x (List.mem_cons_of_mem run hx))
      (fun x hx => hwfg x (List.mem_cons_of_mem run hx))
    simp only [List.map_cons, List.cons_append, collectPointsP, h0,
      List.append_eq, hrec, Except.map]

theorem collectParams_all_none {ls : List (List Char)}
    (h : ∀ l ∈ ls, paramSearch l = none) :
    collectParamsP paramSearch ls = [] := by
  unfold collectParamsP
  induction ls with
  | nil => rfl
  | cons l lt ih =>
    rw [List.filterMap_cons_none (h l (List.mem_cons_self l lt))]
    exact ih fun x hx => h x (List.mem_cons_of_mem l hx)

theorem collectParams_points_append {grid : List (List DecLit)}
    {rest : List (List Char)}
    (hrne : ∀ run ∈ grid, run ≠ [])
    (hwfg : ∀ run ∈ grid, ∀ d ∈ run, d.wf = true) :
    collectParamsP paramSearch (grid.map mkPointLine ++ rest) =
      collectParamsP paramSearch rest := by
  unfold collectParamsP
  induction grid with
  | nil => simp
  | cons run grid ih =>
    have h0 : paramSearch (mkPointLine run) = none :=
      paramSearch_pointLine (hrne run (List.mem_cons_self run grid))
        (hwfg run (List.mem_cons_self run grid))
    rw [List.map_cons, List.cons_append, List.filterMap_cons_none h0]
    exact ih (fun x hx => hrne x (List.mem_cons_of_mem run hx))
      (fun x hx => hwfg x (List.mem_cons_of_mem run hx))

theorem np_array_uniform {rows : List (List FVal)} {M : ℕ}
    (h : ∀ r ∈ rows, r.length = M) :
    np_array rows = some rows := by
  cases rows with
  | nil => rfl
  | cons r rs =>
    simp only [np_array]
    have hall : rs.all (fun row => row.length == r.length) = true := by
      rw [List.all_eq_true]
      intro row hrow
      rw [beq_iff_eq, h row (List.mem_cons_of_mem r hrow),
          h r (List.mem_cons_self r rs)]
    rw [if_pos hall]

/-! ### Full parse of canonical well-formed content -/

theorem takeWhile_all_false {p : Char → Bool} {l : List Char}
    (h : ∀ c ∈ l, p c = false) : l.takeWhile p = [] :=
  takeWhile_nil_of_head fun c hc => h c (List.take_subset 1 l hc)

theorem param_no_hash {key value : List Char} (hk : ∀ c ∈ key, ¬ c = '#')
    (hv : ∀ c ∈ value, ¬ c = '#') :
    ∀ c ∈ key ++ (' ' :: '=' :: ' ' :: value), ¬ c = '#' := by
  intro c hc
  rcases List.mem_append.mp hc with h1 | h2
  · exact hk c h1
  rcases List.mem_cons.mp h2 with h1 | h3
  · rw [h1]; decide
  rcases List.mem_cons.mp h3 with h1 | h4
  · rw [h1]; decide
  rcases List.mem_cons.mp h4 with h1 | h5
  · rw [h1]; decide
  · exact hv c h5

theorem render_wf_ne_nil {d : DecLit} (h : d.wf = true) : d.render ≠ [] := by
  obtain ⟨c, t, he, _⟩ := render_head h
  rw [he]
  simp

theorem render_takeWhile_space {d : DecLit} (h : d.wf = true) :
    d.render.takeWhile isSpaceC = [] :=
  takeWhile_all_false (render_no_space h)

theorem collectParams_six {xcS ycS : List Char} {b1 b2 b3 b4 : DecLit}
    (hxne : xcS ≠ []) (hxd : ∀ c ∈ xcS, c.isDigit = true)
    (hyne : ycS ≠ []) (hyd : ∀ c ∈ ycS, c.isDigit = true)
    (hb1 : b1.wf = true) (hb2 : b2.wf = true)
    (hb3 : b3.wf = true) (hb4 : b4.wf = true) :
    collectParamsP paramSearch
      [mkParamLine "x_count".data xcS, mkParamLine "y_count".data ycS,
       mkParamLine "min_x".data b1.render, mkParamLine "max_x".data b2.render,
       mkParamLine "min_y".data b3.render, mkParamLine "max_y".data b4.render] =
      [("x_count".data, xcS), ("y_count".data, ycS), ("min_x".data, b1.render),
       ("max_x".data, b2.render), ("min_y".data, b3.render),
       ("max_y".data, b4.render)] := by
  have hxs : xcS.takeWhile isSpaceC = [] :=
    takeWhile_all_false fun c hc => digit_not_space (hxd c hc)
  have hys : ycS.takeWhile isSpaceC = [] :=
    takeWhile_all_false fun c hc => digit_not_space (hyd c hc)
  have e1 := @paramLine_extract "x_count".data xcS (by decide) (by decide)
    hxne hxs
  have e2 := @paramLine_extract "y_count".data ycS (by decide) (by decide)
    hyne hys
  have e3 := @paramLine_extract "min_x".data b1.render (by decide) (by decide)
    (render_wf_ne_nil hb1) (render_takeWhile_space hb1)
  have e4 := @paramLine_extract "max_x".data b2.render (by decide) (by decide)
    (render_wf_ne_nil hb2) (render_takeWhile_space hb2)
  have e5 := @paramLine_extract "min_y".data b3.render (by decide) (by decide)
    (render_wf_ne_nil hb3) (render_takeWhile_space hb3)
  have e6 := @paramLine_extract "max_y".data b4.render (by decide) (by decide)
    (render_wf_ne_nil hb4) (render_takeWhile_space hb4)
  unfold collectParamsP
  rw [List.filterMap_cons_some e1, List.filterMap_cons_some e2,
      List.filterMap_cons_some e3, List.filterMap_cons_some e4,
      List.filterMap_cons_some e5, List.filterMap_cons_some e6,
      List.filterMap_nil]

theorem parse_mkContent {grid : List (List DecLit)} {xcS ycS : List Char}
    {b1 b2 b3 b4 : DecLit} {M : ℕ}
    (hrne : ∀ run ∈ grid, run ≠ [])
    (hwfg : ∀ run ∈ grid, ∀ d ∈ run, d.wf = true)
    (hM : ∀ run ∈ grid, run.length = M)
    (hxne : xcS ≠ []) (hxd : ∀ c ∈ xcS, c.isDigit = true)
    (hyne : ycS ≠ []) (hyd : ∀ c ∈ ycS, c.isDigit = true)
    (hb1 : b1.wf = true) (hb2 : b2.wf = true)
    (hb3 : b3.wf = true) (hb4 : b4.wf = true) :
    parse_config_file (mkContent grid xcS ycS b1 b2 b3 b4) =
      some { matrix := grid.map fun run => run.map fun d => FVal.finite d.val,
             x_count := (digitsToNat xcS : ℤ),
             y_count := (digitsToNat ycS : ℤ),
             min_x := FVal.finite b1.val, max_x := FVal.finite b2.val,
             min_y := FVal.finite b3.val, max_y := FVal.finite b4.val } := by
  have hxh : ∀ c ∈ xcS, ¬ c = '#' := fun c hc => digit_not_hash (hxd c hc)
  have hyh : ∀ c ∈ ycS, ¬ c = '#' := fun c hc => digit_not_hash (hyd c hc)
  have hxnl : ∀ c ∈ xcS, ¬ c = '\n' := fun c hc => digit_not_newline (hxd c hc)
  have hynl : ∀ c ∈ ycS, ¬ c = '\n' := fun c hc => digit_not_newline (hyd c hc)
  have hsplit : splitOnChar '\n' (mkContent grid xcS ycS b1 b2 b3 b4) =
      grid.map mkPointLine ++
      [mkParamLine "x_count".data xcS, mkParamLine "y_count".data ycS,
       mkParamLine "min_x".data b1.render, mkParamLine "max_x".data b2.render,
       mkParamLine "min_y".data b3.render, mkParamLine "max_y".data b4.render] := by
    refine splitLines_join (by simp) ?_
    intro l hl c hc
    rcases List.mem_append.mp hl with h1 | h2
    · obtain ⟨run, hrun, he⟩ := List.mem_map.mp h1
      exact mkPointLine_no_newline (hwfg run hrun) c (he ▸ hc)
    · rcases List.mem_cons.mp h2 with he | h3
      · exact mkParamLine_no_newline (by decide) hxnl c (he ▸ hc)
      rcases List.mem_cons.mp h3 with he | h4
      · exact mkParamLine_no_newline (by decide) hynl c (he ▸ hc)
      rcases List.mem_cons.mp h4 with he | h5
      · exact mkParamLine_no_newline (by decide) (render_no_newline hb1) c (he ▸ hc)
      rcases List.mem_cons.mp h5 with he | h6
      · exact mkParamLine_no_newline (by decide) (render_no_newline hb2) c (he ▸ hc)
      rcases List.mem_cons.mp h6 with he | h7
      · exact mkParamLine_no_newline (by decide) (render_no_newline hb3) c (he ▸ hc)
      rcases List.mem_cons.mp h7 with he | h8
      · exact mkParamLine_no_newline (by decide) (render_no_newline hb4) c (he ▸ hc)
      · exact absurd h8 (by simp)
  have hpoints : collectPointsP pointSearch
      (grid.map mkPointLine ++
       [mkParamLine "x_count".data xcS, mkParamLine "y_count".data ycS,
        mkParamLine "min_x".data b1.render, mkParamLine "max_x".data b2.render,
        mkParamLine "min_y".data b3.render, mkParamLine "max_y".data b4.render]) =
      Except.ok (grid.map fun run => run.map fun d => FVal.finite d.val) := by
    refine collectPoints_points hrne hwfg (collectPoints_all_none ?_)
    intro l hl
    rcases List.mem_cons.mp hl with he | h3
    · rw [he]
      exact pointRow_paramLine_none (by decide) (by decide) (by decide)
        (param_no_hash (by decide) hxh)
    rcases List.mem_cons.mp h3 with he | h4
    · rw [he]
      exact pointRow_paramLine_none (by decide) (by decide) (by decide)
        (param_no_hash (by decide) hyh)
    rcases List.mem_cons.mp h4 with he | h5
    · rw [he]
      exact pointRow_paramLine_none (by decide) (by decide) (by decide)
        (param_no_hash (by decide) (render_no_hash hb1))
    rcases List.mem_cons.mp h5 with he | h6
    · rw [he]
      exact pointRow_paramLine_none (by decide) (by decide) (by decide)
        (param_no_hash (by decide) (render_no_hash hb2))
    rcases List.mem_cons.mp h6 with he | h7
    · rw [he]
      exact pointRow_paramLine_none (by decide) (by decide) (by decide)
        (param_no_hash (by decide) (render_no_hash hb3))
    rcases List.mem_cons.mp h7 with he | h8
    · rw [he]
      exact pointRow_paramLine_none (by decide) (by decide) (by decide)
        (param_no_hash (by decide) (render_no_hash hb4))
    · exact absurd h8 (by simp)
  have hparams : collectParamsP paramSearch
      (grid.map mkPointLine ++
       [mkParamLine "x_count".data xcS, mkParamLine "y_count".data ycS,
        mkParamLine "min_x".data b1.render, mkParamLine "max_x".data b2.render,
        mkParamLine "min_y".data b3.render, mkParamLine "max_y".data b4.render]) =
      [("x_count".data, xcS), ("y_count".data, ycS), ("min_x".data, b1.render),
       ("max_x".data, b2.render), ("min_y".data, b3.render),
       ("max_y".data, b4.render)] := by
    rw [collectParams_points_append hrne hwfg]
    exact collectParams_six hxne hxd hyne hyd hb1 hb2 hb3 hb4
  have hl1 : lookupLast
      [("x_count".data, xcS), ("y_count".data, ycS), ("min_x".data, b1.render),
       ("max_x".data, b2.render), ("min_y".data, b3.render),
       ("max_y".data, b4.render)] "x_count".data = some xcS := rfl
  have hl2 : lookupLast
      [("x_count".data, xcS), ("y_count".data, ycS), ("min_x".data, b1.render),
       ("max_x".data, b2.render), ("min_y".data, b3.render),
       ("max_y".data, b4.render)] "y_count".data = some ycS := rfl
  have hl3 : lookupLast
      [("x_count".data, xcS), ("y_count".data, ycS), ("min_x".data, b1.render),
       ("max_x".data, b2.render), ("min_y".data, b3.render),
       ("max_y".data, b4.render)] "min_x".data = some b1.render := rfl
  have hl4 : lookupLast
      [("x_count".data, xcS), ("y_count".data, ycS), ("min_x".data, b1.render),
       ("max_x".data, b2.render), ("min_y".data, b3.render),
       ("max_y".data, b4.render)] "max_x".data = some b2.render := rfl
  have hl5 : lookupLast
      [("x_count".data, xcS), ("y_count".data, ycS), ("min_x".data, b1.render),
       ("max_x".data, b2.render), ("min_y".data, b3.render),
       ("max_y".data, b4.render)] "min_y".data = some b3.render := rfl
  have hl6 : lookupLast
      [("x_count".data, xcS), ("y_count".data, ycS), ("min_x".data, b1.render),
       ("max_x".data, b2.render), ("min_y".data, b3.render),
       ("max_y".data, b4.render)] "max_y".data = some b4.render := rfl
  have hall : (requiredParams.all fun k => (lookupLast
      [("x_count".data, xcS), ("y_count".data, ycS), ("min_x".data, b1.render),
       ("max_x".data, b2.render), ("min_y".data, b3.render),
       ("max_y".data, b4.render)] k).isSome) = true := rfl
  have hnp : np_array (grid.map fun run => run.map fun d => FVal.finite d.val) =
      some (grid.map fun run => run.map fun d => FVal.finite d.val) := by
    refine @np_array_uniform _ M ?_
    intro row hrow
    obtain ⟨run, hrun, he⟩ := List.mem_map.mp hrow
    rw [← he, List.length_map]
    exact hM run hrun
  have hconv : convParams
      [("x_count".data, xcS), ("y_count".data, ycS), ("min_x".data, b1.render),
       ("max_x".data, b2.render), ("min_y".data, b3.render),
       ("max_y".data, b4.render)] =
      some ((digitsToNat xcS : ℤ), (digitsToNat ycS : ℤ), FVal.finite b1.val,
        FVal.finite b2.val, FVal.finite b3.val, FVal.finite b4.val) := by
    simp only [convParams, hl1, hl2, hl3, hl4, hl5, hl6,
      pyIntParse_digits hxne hxd, pyIntParse_digits hyne hyd,
      pyFloatParse_render hb1, pyFloatParse_render hb2, pyFloatParse_render hb3,
      pyFloatParse_render hb4, Option.bind_eq_bind, Option.some_bind]
    rfl
  unfold parse_config_file parse_body parse_bodyP
  rw [hsplit]
  simp only [hpoints, hparams, hall, if_pos, hnp, hconv]
  rfl

/-! ## The claims -/

/-- C1 (counterexample): on an input whose numeric rows are ragged
(lengths 2 and 1) while all six required parameters are present and
parseable, `parse_config_file` returns `none` — the numpy array
construction raises on inhomogeneous rows and the handler converts the
exception to `none` — contradicting the claim that a MeshData is still
returned and only the validator rejects it later. -/
theorem C1_counterexample :
    (collectPointsP pointSearch (splitOnChar '\n' raggedContent)).map
        (fun rows => rows.map List.length) = Except.ok [2, 1] ∧
    (requiredParams.all fun k =>
      (lookupLast (collectParamsP paramSearch (splitOnChar '\n' raggedContent))
        k).isSome) = true ∧
    (convParams (collectParamsP paramSearch (splitOnChar '\n' raggedContent))).isSome
      = true ∧
    parse_config_file raggedContent = none :=
  ⟨rfl, rfl, rfl, rfl⟩

/-- C1 (amended): when the extracted numeric rows have inconsistent
lengths, the grid construction step fails and the failure is caught, so
`parse_config_file` returns `none`; the extraction itself performs no
ragged-row check, but the validator is never reached. -/
theorem C1_ragged_rejected (content : List Char) (lens : List ℕ)
    (hcp : (collectPointsP pointSearch (splitOnChar '\n' content)).map
      (fun rows => rows.map List.length) = Except.ok lens)
    (hrag : ∃ a ∈ lens, ∃ b ∈ lens, a ≠ b) :
    parse_config_file content = none := by
  cases h : collectPointsP pointSearch (splitOnChar '\n' content) with
  | error e =>
    unfold parse_config_file parse_body parse_bodyP
    simp [h, Except.toOption]
  | ok rows =>
    refine parse_none_of_ragged h ?_
    rw [h] at hcp
    simp only [Except.map, Except.ok.injEq] at hcp
    obtain ⟨a, ha, b, hb, hab⟩ := hrag
    rw [← hcp] at ha hb
    obtain ⟨r, hr, hra⟩ := List.mem_map.mp ha
    obtain ⟨r', hr', hrb⟩ := List.mem_map.mp hb
    exact ⟨r, hr, r', hr', by rw [hra, hrb]; exact hab⟩

theorem C1_ragged_rejected_witness : parse_config_file raggedContent = none :=
  C1_ragged_rejected raggedContent [2, 1] rfl (by decide)

/-- C2: every well-formed input assembled from N nonempty rows of M
well-formed decimal literals each, with `x_count`/`y_count` digit strings
denoting N and M and four well-formed bound literals, parses to a MeshData
whose matrix is exactly the grid (rows in line order, values in within-line
order, N rows, M columns) with the declared fields, and validates to true
whenever every literal's magnitude is at most 10 (all parsed values being
finite by construction). -/
theorem C2_well_formed (grid : List (List DecLit)) (xcS ycS : List Char)
    (b1 b2 b3 b4 : DecLit) (M : ℕ)
    (hgne : grid ≠ [])
    (hrne : ∀ run ∈ grid, run ≠ [])
    (hwfg : ∀ run ∈ grid, ∀ d ∈ run, d.wf = true)
    (hM : ∀ run ∈ grid, run.length = M)
    (hxc : digitsToNat xcS = grid.length) (hxne : xcS ≠ [])
    (hxd : ∀ c ∈ xcS, c.isDigit = true)
    (hyc : digitsToNat ycS = M) (hyne : ycS ≠ [])
    (hyd : ∀ c ∈ ycS, c.isDigit = true)
    (hb1 : b1.wf = true) (hb2 : b2.wf = true) (hb3 : b3.wf = true)
    (hb4 : b4.wf = true) :
    ∃ md, parse_config_file (mkContent grid xcS ycS b1 b2 b3 b4) = some md ∧
      md.matrix = grid.map (fun run => run.map fun d => FVal.finite d.val) ∧
      md.matrix.length = grid.length ∧
      (∀ row ∈ md.matrix, row.length = M) ∧
      md.x_count = (grid.length : ℤ) ∧ md.y_count = (M : ℤ) ∧
      md.min_x = FVal.finite b1.val ∧ md.max_x = FVal.finite b2.val ∧
      md.min_y = FVal.finite b3.val ∧ md.max_y = FVal.finite b4.val ∧
      ((∀ run ∈ grid, ∀ d ∈ run, |d.val| ≤ 10) →
        validate_mesh_data md = true) := by
  refine ⟨_, parse_mkContent hrne hwfg hM hxne hxd hyne hyd hb1 hb2 hb3 hb4,
    rfl, by simp, ?_, by rw [hxc], by rw [hyc], rfl, rfl, rfl, rfl, ?_⟩
  · intro row hrow
    obtain ⟨run, hrun, he⟩ := List.mem_map.mp hrow
    rw [← he, List.length_map]
    exact hM run hrun
  · intro hrange
    refine validate_true_of_inRange ?_ ?_
    · cases hg : grid with
      | nil => exact absurd hg hgne
      | cons g gs =>
        have hgl : g.length = M := hM g (by rw [hg]; exact List.mem_cons_self g gs)
        simp only [List.map_cons, npShape, List.length_cons, List.length_map]
        rw [hxc, hyc, hg, ← hgl]
        simp
    · intro r hr v hv
      obtain ⟨run, hrun, he⟩ := List.mem_map.mp hr
      rw [← he] at hv
      obtain ⟨d, hd, hde⟩ := List.mem_map.mp hv
      rw [← hde]
      unfold isFiniteInRange
      rw [decide_eq_true_iff]
      exact hrange run hrun d hd

theorem C2_well_formed_witness :
    ∃ md, parse_config_file
        (mkContent specGrid ['2'] ['2'] litZero lit200 litZero lit200) = some md ∧
      md.matrix = specGrid.map (fun run => run.map fun d => FVal.finite d.val) ∧
      md.matrix.length = specGrid.length ∧
      (∀ row ∈ md.matrix, row.length = 2) ∧
      md.x_count = (specGrid.length : ℤ) ∧ md.y_count = ((2 : ℕ) : ℤ) ∧
      md.min_x = FVal.finite litZero.val ∧ md.max_x = FVal.finite lit200.val ∧
      md.min_y = FVal.finite litZero.val ∧ md.max_y = FVal.finite lit200.val ∧
      ((∀ run ∈ specGrid, ∀ d ∈ run, |d.val| ≤ 10) →
        validate_mesh_data md = true) :=
  C2_well_formed specGrid ['2'] ['2'] litZero lit200 litZero lit200 2
    (by decide) (by decide) (by decide) (by decide) (by decide) (by decide)
    (by decide) (by decide) (by decide) (by decide) (by decide) (by decide)
    (by decide) (by decide)

/-- C3: whenever at least one of the six required parameters is never
produced by a recognised parameter line, `parse_config_file` returns
`none`, and the diagnostic is the fixed generic message
"Missing required mesh parameters", which does not name the missing
parameter. -/
theorem C3_missing_parameter (content : List Char)
    (h : ∃ k ∈ requiredParams,
      lookupLast (collectParamsP paramSearch (splitOnChar '\n' content)) k = none) :
    parse_config_file content = none ∧
    ∀ rows, collectPointsP pointSearch (splitOnChar '\n' content) =
        Except.ok rows →
      parse_body content = Except.error "Missing required mesh parameters".data :=
  parse_body_missing h

theorem C3_missing_parameter_witness :
    parse_config_file missingParamContent = none ∧
    ∀ rows, collectPointsP pointSearch (splitOnChar '\n' missingParamContent) =
        Except.ok rows →
      parse_body missingParamContent =
        Except.error "Missing required mesh parameters".data :=
  C3_missing_parameter missingParamContent (by decide)

/-- C4: for every input text, the body of `parse_config_file` either ends
in an internal exception, in which case the caught result is `none`, or
produces a MeshData, in which case the result is `some` of it — no failure
escapes the function's boundary. -/
theorem C4_no_uncaught (content : List Char) :
    (∃ e, parse_body content = Except.error e ∧
      parse_config_file content = none) ∨
    (∃ md, parse_body content = Except.ok md ∧
      parse_config_file content = some md) :=
  parse_catches content

/-- C5: for a MeshData passing the shape check, validation succeeds when
every value is finite with magnitude at most 10 (boundary inclusive, so
exact 10.0 and -10.0 pass), and fails as soon as some finite value's
magnitude strictly exceeds 10. -/
theorem C5_range_boundary (md : MeshData)
    (hs : npShape md.matrix = [md.x_count, md.y_count]) :
    ((∀ r ∈ md.matrix, ∀ v ∈ r, isFiniteInRange v = true) →
      validate_mesh_data md = true) ∧
    ((∃ r ∈ md.matrix, ∃ v ∈ r, exceeds10 v = true) →
      validate_mesh_data md = false) :=
  ⟨fun h => validate_true_of_inRange hs h, fun h => validate_false_of_exceeds h⟩

theorem C5_range_boundary_witness :
    validate_mesh_data
      { matrix := [[FVal.finite 10, FVal.finite (-10)]], x_count := 1,
        y_count := 2, min_x := FVal.finite 0, max_x := FVal.finite 1,
        min_y := FVal.finite 0, max_y := FVal.finite 1 } = true ∧
    validate_mesh_data
      { matrix := [[FVal.finite (100001 / 10000)]], x_count := 1, y_count := 1,
        min_x := FVal.finite 0, max_x := FVal.finite 1,
        min_y := FVal.finite 0, max_y := FVal.finite 1 } = false :=
  ⟨(C5_range_boundary _ (by decide)).1 (by decide),
   (C5_range_boundary _ (by decide)).2
     ⟨[FVal.finite (100001 / 10000)], by simp, FVal.finite (100001 / 10000),
      by simp,
      decide_eq_true (by
        rw [show |(100001 / 10000 : ℚ)| = 100001 / 10000 from
          abs_of_pos (by norm_num)]
        norm_num)⟩⟩

/-- C6: a MeshData whose matrix contains a not-a-number or an infinity
anywhere fails validation, whatever the declared dimensions are. -/
theorem C6_nonfinite (md : MeshData)
    (h : ∃ r ∈ md.matrix, ∃ v ∈ r, isSpecialVal v = true) :
    validate_mesh_data md = false :=
  validate_false_of_special h

theorem C6_nonfinite_witness :
    validate_mesh_data
      { matrix := [[FVal.nan]], x_count := 1, y_count := 1,
        min_x := FVal.finite 0, max_x := FVal.finite 1,
        min_y := FVal.finite 0, max_y := FVal.finite 1 } = false :=
  C6_nonfinite _ (by decide)

/-- C7: a MeshData (with a rectangular matrix, as every numpy 2-D array
is) whose shape differs from the declared `(x_count, y_count)` fails
validation even when every value is finite and within the bound. -/
theorem C7_shape_mismatch (md : MeshData)
    (hrect : ∀ r ∈ md.matrix, ∀ r' ∈ md.matrix, r.length = r'.length)
    (hvals : ∀ r ∈ md.matrix, ∀ v ∈ r, isFiniteInRange v = true)
    (hshape : npShape md.matrix ≠ [md.x_count, md.y_count]) :
    validate_mesh_data md = false :=
  validate_false_of_shape hshape

theorem C7_shape_mismatch_witness :
    validate_mesh_data
      { matrix := [[FVal.finite 1]], x_count := 2, y_count := 1,
        min_x := FVal.finite 0, max_x := FVal.finite 1,
        min_y := FVal.finite 0, max_y := FVal.finite 1 } = false :=
  C7_shape_mismatch _ (by decide) (by decide) (by decide)

/-- C8: `parse_config_file` is deterministic and stateless: the method
leaves the parser object unchanged, a second invocation on the same
content returns the same result, and when both results are MeshData their
matrices and all scalar fields coincide. -/
theorem C8_deterministic (content : List Char) :
    ((KlipperMeshParser.init.parse content).2 = KlipperMeshParser.init) ∧
    ((KlipperMeshParser.init.parse content).1 =
      (((KlipperMeshParser.init.parse content).2).parse content).1) ∧
    (((KlipperMeshParser.init.parse content).1 = none ∧
      (((KlipperMeshParser.init.parse content).2).parse content).1 = none) ∨
     ∃ m1 m2, (KlipperMeshParser.init.parse content).1 = some m1 ∧
       (((KlipperMeshParser.init.parse content).2).parse content).1 = some m2 ∧
       m1.matrix = m2.matrix ∧ m1.x_count = m2.x_count ∧
       m1.y_count = m2.y_count ∧ m1.min_x = m2.min_x ∧
       m1.max_x = m2.max_x ∧ m1.min_y = m2.min_y ∧ m1.max_y = m2.max_y) := by
  refine ⟨rfl, rfl, ?_⟩
  cases h : (KlipperMeshParser.init.parse content).1 with
  | none => exact Or.inl ⟨rfl, h⟩
  | some md =>
    exact Or.inr ⟨md, md, rfl, h, rfl, rfl, rfl, rfl, rfl, rfl, rfl⟩

/-- C9 (counterexample): a line whose leading content itself contains an
earlier match (`#*# 9.9 x` before `#*# 1.0, 2.0`) is matched at the
earlier position: one value is extracted instead of the two of the
marker-at-start line, so extraction is not "exactly as if the marker had
begun the line" for arbitrary leading content. -/
theorem C9_counterexample :
    (pointRowOfLineP pointSearch
        ("#*# 9.9 x".data ++ "#*# 1.0, 2.0".data)).map
      (Except.map List.length) = some (Except.ok 1) ∧
    (pointRowOfLineP pointSearch ("#*# 1.0, 2.0".data)).map
      (Except.map List.length) = some (Except.ok 2) ∧
    pointRowOfLineP pointSearch ("#*# 9.9 x".data ++ "#*# 1.0, 2.0".data) ≠
      pointRowOfLineP pointSearch ("#*# 1.0, 2.0".data) := by
  refine ⟨rfl, rfl, ?_⟩
  intro h
  have h1 : (pointRowOfLineP pointSearch
      ("#*# 9.9 x".data ++ "#*# 1.0, 2.0".data)).map
      (Except.map List.length) = some (Except.ok 1) := rfl
  have h2 : (pointRowOfLineP pointSearch ("#*# 1.0, 2.0".data)).map
      (Except.map List.length) = some (Except.ok 2) := rfl
  rw [h] at h1
  rw [h1] at h2
  simp at h2

/-- C9 (amended): leading content containing no `#` (hence no earlier
match of either pattern) leaves both searches unchanged: the row or
parameter is extracted exactly as if the marker had begun the line. -/
theorem C9_leading_content (pre rest : List Char)
    (h : ∀ c ∈ pre, ¬ c = '#') :
    pointRowOfLineP pointSearch (pre ++ rest) =
      pointRowOfLineP pointSearch rest ∧
    paramSearch (pre ++ rest) = paramSearch rest := by
  constructor
  · unfold pointRowOfLineP
    rw [pointSearch_append_noHash h]
  · exact paramSearch_append_noHash h

theorem C9_leading_content_witness :
    (pointRowOfLineP pointSearch ("abc ".data ++ "#*# 1.0, 2.0".data) =
      pointRowOfLineP pointSearch ("#*# 1.0, 2.0".data)) ∧
    (paramSearch ("abc ".data ++ "#*# x_count = 5".data) =
      paramSearch ("#*# x_count = 5".data)) :=
  ⟨(C9_leading_content "abc ".data "#*# 1.0, 2.0".data (by decide)).1,
   (C9_leading_content "abc ".data "#*# x_count = 5".data (by decide)).2⟩

/-- C10: on a numeric-row line made of a marker, a run of well-formed
literals and trailing content that cannot extend the matched run, exactly
the run is extracted as the row — the trailing content is silently
discarded and no failure or rejection occurs. -/
theorem C10_maximal_run (run : List DecLit) (trailing : List Char)
    (hne : run ≠ []) (hwf : ∀ d ∈ run, d.wf = true)
    (ht : cantExtend trailing = true) :
    pointRowOfLineP pointSearch (mkPointLine run ++ trailing) =
      some (Except.ok (run.map fun d => FVal.finite d.val)) :=
  pointLine_extract hne hwf ht

theorem C10_maximal_run_witness :
    pointRowOfLineP pointSearch
        (mkPointLine [⟨false, ['1'], ['5']⟩] ++ ", 2, 3.5".data) =
      some (Except.ok
        ([(⟨false, ['1'], ['5']⟩ : DecLit)].map fun d => FVal.finite d.val)) :=
  C10_maximal_run [⟨false, ['1'], ['5']⟩] ", 2, 3.5".data
    (by decide) (by decide) (by decide)

end MeshCheck
